import Mathlib

/-!
# Verification of the snare catching-test execution and assessment engine

A shallow embedding of the core of the `snare` repository:

* the dual-run executor (`internal/runner/executor.go`),
* the isolated workspace (`internal/runner/tempdir.go`),
* the assessment chain (`internal/assess/assessor.go`, `internal/assess/catching.go`),
* the LLM judge blend (`internal/assess`, LLMJudge),
* the Go language backend's `ApplyMutant` (`internal/lang/golang.go`),
* the per-pair error handling of the pipeline (`internal/pipeline`).

Go strings are modelled as Lean `String`s, byte slices as `String`s
(byte-identity is string equality), float64 scores as exact rationals `ℚ`,
and fallible operations as `Option`/`Except`.  The external LLM call plus
JSON parsing of its response is modelled as an oracle parameter
`Option JudgeResponse` (`none` = call failed or response unparsable).
-/

set_option autoImplicit false

namespace Snare

/-- Substring test, the model of Go's `strings.Contains(s, sub)`. -/
def containsStr (s sub : String) : Bool :=
  decide (sub.data <:+: s.data)

/-! ## Data model (`pkg/model`)

The `model` package's struct declarations are referenced throughout the
sources; the fields below are exactly those read or written by the
executor, the pipeline and the assessors.  Go zero values are the field
defaults. -/

/-- A generated test, as consumed by the executor and the judge. -/
structure GeneratedTest where
  TestName : String := ""
  TestCode : String := ""
  MutantID : String := ""
deriving DecidableEq, Repr

/-- A mutation descriptor. -/
structure Mutant where
  ID : String := ""
  Description : String := ""
deriving DecidableEq, Repr

/-- One evaluation of one generated test against one code change
(`model.TestResult`). -/
structure TestResult where
  Test : GeneratedTest := {}
  Mutant : Mutant := {}
  PassParent : Bool := false
  ParentOutput : String := ""
  FailDiff : Bool := false
  DiffOutput : String := ""
  IsCatching : Bool := false
  Confidence : ℚ := 0
  Assessment : ℚ := 0
  FilteredReason : String := ""
  BehaviorChange : String := ""
  Question : String := ""
  TelemetryContext : String := ""
deriving DecidableEq, Repr

/-! ## Assessment chain (`internal/assess/catching.go`, `assessor.go`) -/

/-- `CompilationFilter.Assess`: filters out tests that failed to compile. -/
def compilationFilterAssess (r : TestResult) : TestResult :=
  if r.FilteredReason ≠ "" then r
  else if containsStr r.ParentOutput "build failed" ||
      containsStr r.ParentOutput "does not compile" ||
      containsStr r.ParentOutput "[build failed]" then
    { r with FilteredReason := "compilation failure", IsCatching := false,
             Confidence := 0, Assessment := -1 }
  else r

/-- `CatchingAssessor.Assess`: identifies tests that pass on parent and fail
on new code. -/
def catchingAssessorAssess (r : TestResult) : TestResult :=
  if r.FilteredReason ≠ "" then r
  else if !r.PassParent then
    { r with FilteredReason := "fails on parent code", IsCatching := false,
             Confidence := 0, Assessment := -1 }
  else if !r.FailDiff then
    { r with IsCatching := false, Confidence := 0, Assessment := 0 }
  else
    { r with IsCatching := true, Confidence := 1, Assessment := 0.5 }

/-- `FalsePositivePatterns.Assess`: false-positive signatures, each
subtracting a fixed penalty; two signatures also filter the result.
The sequential `if` blocks of the Go function become a `let` chain. -/
def falsePositivePatternsAssess (r : TestResult) : TestResult :=
  if r.FilteredReason ≠ "" || !r.IsCatching then r
  else
    let testCode := r.Test.TestCode
    let output := r.DiffOutput
    let a := r.Assessment
    let a := if containsStr testCode "reflect." then a - 0.3 else a
    let a := if containsStr output "cannot use" || containsStr output "type mismatch" then
      a - 0.4 else a
    let a := if containsStr output "mock" &&
        (containsStr output "unexpected call" || containsStr output "not set up") then
      a - 0.4 else a
    let a := if containsStr output "map[" && containsStr testCode "fmt.Sprint" then
      a - 0.3 else a
    let a := if containsStr output "not implemented" || containsStr output "TODO" then
      a - 0.5 else a
    let undef := containsStr output "undefined:" || containsStr output "undeclared name"
    let a := if undef then a - 0.5 else a
    let infra := containsStr output "cannot find package" ||
      containsStr output "connection refused" ||
      containsStr output "timed out" ||
      containsStr output "Timeout >"
    let a := if infra then a - 0.6 else a
    let a := if a < -1 then -1 else a
    let reason := if infra then "infrastructure failure"
      else if undef then "undefined variable (likely rename)"
      else r.FilteredReason
    let catching := if undef || infra then false else r.IsCatching
    { r with Assessment := a, FilteredReason := reason, IsCatching := catching }

/-- `TruePositivePatterns.Assess`: true-positive signatures, each adding a
fixed bonus, with the final upper clamp. -/
def truePositivePatternsAssess (r : TestResult) : TestResult :=
  if r.FilteredReason ≠ "" || !r.IsCatching then r
  else
    let output := r.DiffOutput
    let a := r.Assessment
    let a := if (containsStr output "got: true" && containsStr output "want: false") ||
        (containsStr output "got: false" && containsStr output "want: true") ||
        (containsStr output "got true" && containsStr output "expected false") ||
        (containsStr output "got false" && containsStr output "expected true") then
      a + 0.2 else a
    let a := if containsStr output "got: <nil>" || containsStr output "got <nil>" ||
        containsStr output "nil pointer dereference" then
      a + 0.2 else a
    let a := if containsStr output "got: []" || containsStr output "got []" ||
        (containsStr output "len(" && containsStr output "= 0") then
      a + 0.2 else a
    let a := if containsStr output "key not found" || containsStr output "index out of range" then
      a + 0.15 else a
    let a := if containsStr output "FAIL" &&
        (containsStr output "got" || containsStr output "expected" ||
          containsStr output "want") then
      a + 0.1 else a
    let a := if a > 1 then 1 else a
    { r with Assessment := a }

/-- The parsed shape of a successful judge response (`judgeResponse`). -/
structure JudgeResponse where
  assessment : ℚ := 0
  behaviorChange : String := ""
  question : String := ""
deriving DecidableEq, Repr

/-- `LLMJudge.Assess`.  The network call and the JSON decoding of its
response are modelled by the `oracle` parameter: `none` when the call
fails or the response cannot be parsed (the Go code `return`s in both
cases, keeping the record unchanged), `some jr` when it parses. -/
def llmJudgeAssess (oracle : Option JudgeResponse) (r : TestResult) : TestResult :=
  if r.FilteredReason ≠ "" || !r.IsCatching then r
  else
    match oracle with
    | none => r
    | some jr =>
      let ruleScore := r.Assessment
      let llmScore := jr.assessment
      let combined := ruleScore * 0.4 + llmScore * 0.6
      let combined := if combined > 1 then 1 else combined
      let combined := if combined < -1 then -1 else combined
      { r with Assessment := combined, BehaviorChange := jr.behaviorChange,
               Question := jr.question }

/-- The body of `Chain.Evaluate` for a single record, for the default
catching chain (`DefaultCatchingChain`): skip records already filtered
during execution, otherwise reset `Confidence`/`Assessment` and apply the
assessors in order.  With `oracle = none` this is also the behaviour of
`DefaultRuleOnlyChain` (the judge stage is a no-op). -/
def chainEvaluateOne (oracle : Option JudgeResponse) (r : TestResult) : TestResult :=
  if r.FilteredReason ≠ "" then r
  else
    llmJudgeAssess oracle
      (truePositivePatternsAssess
        (falsePositivePatternsAssess
          (catchingAssessorAssess
            (compilationFilterAssess
              { r with Confidence := 1, Assessment := 0 }))))

/-! ## Dual-run executor (`internal/runner/executor.go`)

`ExecuteCatching` is modelled as a function of an environment describing
the outcomes of its effectful steps: temp-dir creation, the four
`OverwriteFile` calls, and the two `RunTest` invocations (`Except.error` =
the runner itself failed, `Except.ok (passed, output)` = it ran).  The
function returns the Go pair `(result, err)` — `err : Option String` —
together with the trace of workspace lifecycle events, with the `defer`red
`Cleanup`s appearing at each exit path in LIFO order. -/

/-- Workspace lifecycle events.  Workspace 1 is the parent-run temp dir
`td`, workspace 2 the new-code temp dir `td2`. -/
inductive Event where
  | createWs (n : Nat)
  | runWs (n : Nat)
  | destroyWs (n : Nat)
deriving DecidableEq, Repr

/-- Outcomes of the executor's effectful steps for one call. -/
structure ExecEnv where
  /-- `NewTempDir` for the parent run: `some e` = error. -/
  mkTemp1 : Option String := none
  /-- `td.OverwriteFile(relPath, parentSource)`. -/
  writeParentSrc : Option String := none
  /-- `td.OverwriteFile(testRelPath, testCode)`. -/
  writeParentTest : Option String := none
  /-- `RunTest` on the parent workspace. -/
  runParent : Except String (Bool × String) := .ok (true, "")
  /-- `NewTempDir` for the new-code run. -/
  mkTemp2 : Option String := none
  /-- `td2.OverwriteFile(relPath, newSource)`. -/
  writeNewSrc : Option String := none
  /-- `td2.OverwriteFile(testRelPath, testCode)`. -/
  writeNewTest : Option String := none
  /-- `RunTest` on the new-code workspace. -/
  runNew : Except String (Bool × String) := .ok (true, "")
deriving Repr

/-- `Executor.ExecuteCatching`, following the Go control flow line by line.
Returns `(result, err, trace)`. -/
def executeCatching (env : ExecEnv) (test : GeneratedTest) (mutant : Mutant) :
    TestResult × Option String × List Event :=
  let result : TestResult := { Test := test, Mutant := mutant }
  match env.mkTemp1 with
  | some e => (result, some ("creating temp dir: " ++ e), [])
  | none =>
    match env.writeParentSrc with
    | some e => (result, some ("writing parent source: " ++ e),
        [.createWs 1, .destroyWs 1])
    | none =>
      match env.writeParentTest with
      | some e => (result, some ("writing test file: " ++ e),
          [.createWs 1, .destroyWs 1])
      | none =>
        match env.runParent with
        | .error e => (result, some ("running test on parent: " ++ e),
            [.createWs 1, .runWs 1, .destroyWs 1])
        | .ok (passed, output) =>
          let result := { result with PassParent := passed, ParentOutput := output }
          if !passed then
            ({ result with FilteredReason := "fails on parent code" }, none,
              [.createWs 1, .runWs 1, .destroyWs 1])
          else
            match env.mkTemp2 with
            | some e => (result, some ("creating temp dir for new code: " ++ e),
                [.createWs 1, .runWs 1, .destroyWs 1])
            | none =>
              match env.writeNewSrc with
              | some e => (result, some ("writing new source: " ++ e),
                  [.createWs 1, .runWs 1, .createWs 2, .destroyWs 2, .destroyWs 1])
              | none =>
                match env.writeNewTest with
                | some e => (result, some ("writing test file for new code: " ++ e),
                    [.createWs 1, .runWs 1, .createWs 2, .destroyWs 2, .destroyWs 1])
                | none =>
                  match env.runNew with
                  | .error e => (result, some ("running test on new code: " ++ e),
                      [.createWs 1, .runWs 1, .createWs 2, .runWs 2,
                        .destroyWs 2, .destroyWs 1])
                  | .ok (passed2, output2) =>
                    let result := { result with
                      FailDiff := !passed2, DiffOutput := output2,
                      IsCatching := result.PassParent && !passed2 }
                    (result, none,
                      [.createWs 1, .runWs 1, .createWs 2, .runWs 2,
                        .destroyWs 2, .destroyWs 1])

/-- The pipeline's per-pair handling of the executor's `(tr, err)` pair
(stage 4 loop of `Pipeline.Run`): an execution error is recorded on the
record as `FilteredReason = "execution error: <err>"` and the loop
continues with the next pair. -/
def pipelineRecordPair (p : TestResult × Option String) : TestResult :=
  match p.2 with
  | some e => { p.1 with FilteredReason := "execution error: " ++ e }
  | none => p.1

/-- Stage-4 loop of `Pipeline.Run` over a list of pairs, each pair given by
its generated test, mutant and effect environment; every pair contributes
exactly one record to `result.Results`. -/
def pipelineRunPairs (pairs : List (ExecEnv × GeneratedTest × Mutant)) : List TestResult :=
  pairs.map fun p =>
    pipelineRecordPair (((executeCatching p.1 p.2.1 p.2.2).1, (executeCatching p.1 p.2.1 p.2.2).2.1))

/-- Number of live workspaces with index `n` after the events `tr`. -/
def liveCount (tr : List Event) (n : Nat) : Nat :=
  tr.count (Event.createWs n) - tr.count (Event.destroyWs n)

/-- `true` when at no prefix of the trace both workspaces are live at once. -/
def neverCoexist (tr : List Event) : Bool :=
  (List.range (tr.length + 1)).all fun k =>
    !(decide (0 < liveCount (tr.take k) 1) && decide (0 < liveCount (tr.take k) 2))

/-! ## Basic lemmas about the assessors -/

/-- The run-outcome and output fields that the assessors read but never
write. -/
structure RunFacts where
  passParent : Bool
  failDiff : Bool
  parentOutput : String
  diffOutput : String
  testCode : String
deriving DecidableEq, Repr

/-- Projection of a record onto its assessor-read-only fields. -/
def readFacts (r : TestResult) : RunFacts :=
  ⟨r.PassParent, r.FailDiff, r.ParentOutput, r.DiffOutput, r.Test.TestCode⟩

/-- The record invariant of §3 of the design: a set filter reason forces
`IsCatching = false`. -/
def ReasonInv (r : TestResult) : Prop :=
  r.FilteredReason ≠ "" → r.IsCatching = false

/-- The record the pipeline appends to `result.Results` for one pair:
executor output plus the pipeline's per-pair error handling. -/
def executedRecord (env : ExecEnv) (t : GeneratedTest) (m : Mutant) : TestResult :=
  pipelineRecordPair ((executeCatching env t m).1, (executeCatching env t m).2.1)

/-- The assessment value computed by `FalsePositivePatterns.Assess` on an
unfiltered weak catch, as a function of the fields it reads. -/
def fppScore (testCode output : String) (a0 : ℚ) : ℚ :=
  let a := a0
  let a := if containsStr testCode "reflect." then a - 0.3 else a
  let a := if containsStr output "cannot use" || containsStr output "type mismatch" then
    a - 0.4 else a
  let a := if containsStr output "mock" &&
      (containsStr output "unexpected call" || containsStr output "not set up") then
    a - 0.4 else a
  let a := if containsStr output "map[" && containsStr testCode "fmt.Sprint" then
    a - 0.3 else a
  let a := if containsStr output "not implemented" || containsStr output "TODO" then
    a - 0.5 else a
  let undef := containsStr output "undefined:" || containsStr output "undeclared name"
  let a := if undef then a - 0.5 else a
  let infra := containsStr output "cannot find package" ||
    containsStr output "connection refused" ||
    containsStr output "timed out" ||
    containsStr output "Timeout >"
  let a := if infra then a - 0.6 else a
  if a < -1 then -1 else a

/-- The assessment value computed by `TruePositivePatterns.Assess` on an
unfiltered weak catch. -/
def tppScore (output : String) (a0 : ℚ) : ℚ :=
  let a := a0
  let a := if (containsStr output "got: true" && containsStr output "want: false") ||
      (containsStr output "got: false" && containsStr output "want: true") ||
      (containsStr output "got true" && containsStr output "expected false") ||
      (containsStr output "got false" && containsStr output "expected true") then
    a + 0.2 else a
  let a := if containsStr output "got: <nil>" || containsStr output "got <nil>" ||
      containsStr output "nil pointer dereference" then
    a + 0.2 else a
  let a := if containsStr output "got: []" || containsStr output "got []" ||
      (containsStr output "len(" && containsStr output "= 0") then
    a + 0.2 else a
  let a := if containsStr output "key not found" || containsStr output "index out of range" then
    a + 0.15 else a
  let a := if containsStr output "FAIL" &&
      (containsStr output "got" || containsStr output "expected" ||
        containsStr output "want") then
    a + 0.1 else a
  if a > 1 then 1 else a

/-- The judge's blended score `rule*0.4 + llm*0.6`, clamped. -/
def judgeBlend (rule llm : ℚ) : ℚ :=
  let combined := rule * 0.4 + llm * 0.6
  let combined := if combined > 1 then 1 else combined
  if combined < -1 then -1 else combined

/-- Hypotheses naming the branch a chain run takes: unfiltered input, no
compilation markers in the parent output. -/
def NoMarkers (x : TestResult) : Prop :=
  (containsStr x.ParentOutput "build failed" ||
    containsStr x.ParentOutput "does not compile" ||
    containsStr x.ParentOutput "[build failed]") = false

/-- Go's `strings.Replace(s, old, new, 1)`. -/
def replaceOnce (old new : List Char) : List Char → List Char
  | [] => if old.isPrefixOf ([] : List Char) then new else []
  | c :: rest =>
    if old.isPrefixOf (c :: rest) then new ++ (c :: rest).drop old.length
    else c :: replaceOnce old new rest

/-- `(*Go).ApplyMutant`: replace the first occurrence of `original` with
`mutated`; report "original snippet not found in source" exactly when the
replacement result equals the input. -/
def ApplyMutant (originalSource original mutated : List Char) : Except String (List Char) :=
  let result := replaceOnce original mutated originalSource
  if result = originalSource then Except.error "original snippet not found in source"
  else Except.ok result

/-- A path relative to a root, as components. -/
abbrev Path := List String

/-- The real (project) filesystem tree. -/
inductive RTree where
  | file (data : String)
  | dir (entries : List (String × RTree))

/-- A workspace tree: real files, symlinks into the real tree, dirs. -/
inductive WTree where
  | file (data : String)
  | link (target : Path)
  | dir (entries : List (String × WTree))

/-- First entry with the given name, as the OS would resolve it. -/
def findEntry {α : Type} : List (String × α) → String → Option α
  | [], _ => none
  | (m, t) :: rest, n => if m = n then some t else findEntry rest n

/-- Replace the first entry with the given name, or append a new one. -/
def setEntry {α : Type} : List (String × α) → String → α → List (String × α)
  | [], n, v => [(n, v)]
  | (m, t) :: rest, n, v => if m = n then (n, v) :: rest else (m, t) :: setEntry rest n v

/-- Remove the first entry with the given name (`os.Remove`). -/
def removeEntry {α : Type} : List (String × α) → String → List (String × α)
  | [], _ => []
  | (m, t) :: rest, n => if m = n then rest else (m, t) :: removeEntry rest n

/-- Resolve a path in the real tree. -/
def rlookup : Path → RTree → Option RTree
  | [], t => some t
  | _ :: _, .file _ => none
  | n :: p, .dir es =>
    match findEntry es n with
    | some t => rlookup p t
    | none => none

/-- Read a real file's bytes. -/
def readReal (real : RTree) (p : Path) : Option String :=
  match rlookup p real with
  | some (.file d) => some d
  | _ => none

/-- `NewTempDir` / `symlinkContents`: a fresh workspace holds one symlink
per top-level entry of the module dir. -/
def NewTempDir (real : RTree) : Option WTree :=
  match real with
  | .dir es => some (.dir (es.map fun e => (e.1, WTree.link [e.1])))
  | .file _ => none

mutual
/-- `copyDir src dst`: directories are copied as real directories, files
become symlinks to their real path ("Symlink files for efficiency"). -/
def copyDir (p : Path) : RTree → WTree
  | .file _ => .link p
  | .dir es => .dir (copyEntries p es)

def copyEntries (p : Path) : List (String × RTree) → List (String × WTree)
  | [] => []
  | (n, .dir es') :: rest => (n, .dir (copyEntries (p ++ [n]) es')) :: copyEntries p rest
  | (n, .file _) :: rest => (n, .link (p ++ [n])) :: copyEntries p rest
end

/-- `os.WriteFile` on the real tree at an absolute real path: creates or
truncates the file; fails on a directory or a missing parent. -/
def writeReal : Path → String → RTree → Option RTree
  | [n], data, .dir es =>
    match findEntry es n with
    | some (.dir _) => none
    | _ => some (.dir (setEntry es n (.file data)))
  | n :: p, data, .dir es =>
    match findEntry es n with
    | some t => (writeReal p data t).map fun t' => .dir (setEntry es n t')
    | none => none
  | _, _, _ => none

/-- `os.MkdirAll` under the workspace root: walks existing directories,
creates missing ones, follows a directory symlink into the real tree
(creating the remaining directories there), and fails on a file. -/
def mkdirAllReal : Path → RTree → Option RTree
  | [], .dir es => some (.dir es)
  | [], .file _ => none
  | n :: p, .dir es =>
    match findEntry es n with
    | none => (mkdirAllReal p (.dir [])).map fun t' => RTree.dir (setEntry es n t')
    | some t => (mkdirAllReal p t).map fun t' => RTree.dir (setEntry es n t')
  | _ :: _, .file _ => none

def mkdirAllWs : Path → RTree → WTree → Option (RTree × WTree)
  | [], real, w => some (real, w)
  | n :: p, real, .dir es =>
    match findEntry es n with
    | none => (mkdirAllWs p real (.dir [])).map fun rw => (rw.1, WTree.dir (setEntry es n rw.2))
    | some (.dir es') =>
      (mkdirAllWs p real (.dir es')).map fun rw => (rw.1, WTree.dir (setEntry es n rw.2))
    | some (.file _) => none
    | some (.link tgt) =>
      match rlookup tgt real with
      | some (.dir _) => (mkdirAllReal (tgt ++ p) real).map fun real' => (real', WTree.dir es)
      | _ => none
  | _ :: _, _, .file _ => none
  | _ :: _, _, .link _ => none

/-- `os.WriteFile` at a workspace path: resolution follows symlinks at
every component (no O_NOFOLLOW), so writing through a file symlink
truncates and writes the real file it points to. -/
def writeFileWs : Path → String → RTree → WTree → Option (RTree × WTree)
  | [n], data, real, .dir es =>
    match findEntry es n with
    | none => some (real, .dir (setEntry es n (.file data)))
    | some (.file _) => some (real, .dir (setEntry es n (.file data)))
    | some (.link tgt) => (writeReal tgt data real).map fun real' => (real', WTree.dir es)
    | some (.dir _) => none
  | n :: p, data, real, .dir es =>
    match findEntry es n with
    | some (.dir es') =>
      (writeFileWs p data real (.dir es')).map fun rw => (rw.1, WTree.dir (setEntry es n rw.2))
    | some (.link tgt) => (writeReal (tgt ++ p) data real).map fun real' => (real', WTree.dir es)
    | _ => none
  | _, _, _, _ => none

/-- The tail of `OverwriteFile` after the top-level handling:
`os.MkdirAll(filepath.Dir(target))` followed by `os.WriteFile(target)`. -/
def overwriteFinish (relPath : Path) (content : String) (real : RTree) (w : WTree) :
    Option (RTree × WTree) :=
  (mkdirAllWs relPath.dropLast real w).bind fun rw =>
    writeFileWs relPath content rw.1 rw.2

/-- `TempDir.OverwriteFile`: materialize or remove the top-level symlink,
then create parents and write.  Returns the updated (real, workspace)
pair; `none` is an error return. -/
def OverwriteFile (real : RTree) (ws : WTree) (relPath : Path) (content : String) :
    Option (RTree × WTree) :=
  match relPath, ws with
  | [], _ => none
  | top :: rest, .dir es =>
    match findEntry es top with
    | none => none
    | some (.link tgt) =>
      match rlookup tgt real with
      | none => none
      | some (.dir res) =>
        overwriteFinish (top :: rest) content real
          (.dir (setEntry es top (copyDir tgt (.dir res))))
      | some (.file _) =>
        overwriteFinish (top :: rest) content real (.dir (removeEntry es top))
    | some _ => overwriteFinish (top :: rest) content real (.dir es)
  | _ :: _, _ => none

/-- Read a file under the workspace, resolving symlinks through the
(current) real tree. -/
def readWs (real : RTree) : WTree → Path → Option String
  | .file d, [] => some d
  | .file _, _ :: _ => none
  | .link tgt, p =>
    match rlookup (tgt ++ p) real with
    | some (.file d) => some d
    | _ => none
  | .dir _, [] => none
  | .dir es, n :: p =>
    match findEntry es n with
    | some w => readWs real w p
    | none => none

/-- The modified real tree is safe to read through the mirror at positions
the original tree lacks or holds a directory at. -/
def shapeOk (real' : RTree) (tgt : Path) (rt : RTree) : Prop :=
  (∀ u, rlookup u rt = none → readReal real' (tgt ++ u) = none) ∧
  (∀ u es', rlookup u rt = some (.dir es') → readReal real' (tgt ++ u) = none)

/-- Real directory listings have unique entry names (an OS invariant). -/
def nodupRoot : RTree → Prop
  | .file _ => True
  | .dir es => (es.map Prod.fst).Nodup

instance : (t : RTree) → Decidable (nodupRoot t)
  | .file _ => isTrue trivial
  | .dir es => inferInstanceAs (Decidable ((es.map Prod.fst).Nodup))

/-- Entry lists of the directory chain `os.MkdirAll` creates from nothing. -/
def freshDirsE : Path → List (String × WTree)
  | [] => []
  | n :: d => [(n, .dir (freshDirsE d))]

/-- The chain of fresh directories ending in a fresh file that
`os.MkdirAll` + `os.WriteFile` create below a missing entry. -/
def freshFile : Path → String → WTree
  | [], c => .file c
  | n :: d, c => .dir [(n, freshFile d c)]

/-! ## Theorems -/

theorem compilationFilter_noop_of_filtered (r : TestResult) (h : r.FilteredReason ≠ "") :
    compilationFilterAssess r = r := by
  unfold compilationFilterAssess
  rw [if_pos h]

theorem catchingAssessor_noop_of_filtered (r : TestResult) (h : r.FilteredReason ≠ "") :
    catchingAssessorAssess r = r := by
  unfold catchingAssessorAssess
  rw [if_pos h]

theorem falsePositive_noop_of_filtered (r : TestResult) (h : r.FilteredReason ≠ "") :
    falsePositivePatternsAssess r = r := by
  unfold falsePositivePatternsAssess
  simp [h]

theorem truePositive_noop_of_filtered (r : TestResult) (h : r.FilteredReason ≠ "") :
    truePositivePatternsAssess r = r := by
  unfold truePositivePatternsAssess
  simp [h]

theorem llmJudge_noop_of_filtered (o : Option JudgeResponse) (r : TestResult)
    (h : r.FilteredReason ≠ "") : llmJudgeAssess o r = r := by
  unfold llmJudgeAssess
  simp [h]

theorem chainEvaluateOne_noop_of_filtered (o : Option JudgeResponse) (r : TestResult)
    (h : r.FilteredReason ≠ "") : chainEvaluateOne o r = r := by
  unfold chainEvaluateOne
  rw [if_pos h]

theorem readFacts_compilationFilter (r : TestResult) :
    readFacts (compilationFilterAssess r) = readFacts r := by
  unfold compilationFilterAssess
  split <;> [rfl; (split <;> rfl)]

theorem readFacts_catchingAssessor (r : TestResult) :
    readFacts (catchingAssessorAssess r) = readFacts r := by
  unfold catchingAssessorAssess
  split <;> [rfl; (split <;> [rfl; (split <;> rfl)])]

theorem readFacts_falsePositive (r : TestResult) :
    readFacts (falsePositivePatternsAssess r) = readFacts r := by
  unfold falsePositivePatternsAssess
  split <;> rfl

theorem readFacts_truePositive (r : TestResult) :
    readFacts (truePositivePatternsAssess r) = readFacts r := by
  unfold truePositivePatternsAssess
  split <;> rfl

theorem readFacts_llmJudge (o : Option JudgeResponse) (r : TestResult) :
    readFacts (llmJudgeAssess o r) = readFacts r := by
  unfold llmJudgeAssess
  split
  · rfl
  · cases o <;> rfl

theorem readFacts_chainEvaluateOne (o : Option JudgeResponse) (r : TestResult) :
    readFacts (chainEvaluateOne o r) = readFacts r := by
  unfold chainEvaluateOne
  split
  · rfl
  · rw [readFacts_llmJudge, readFacts_truePositive, readFacts_falsePositive,
      readFacts_catchingAssessor, readFacts_compilationFilter]
    rfl

/-- No assessor ever clears an already-set filter reason. -/
theorem compilationFilter_reason_persists (r : TestResult)
    (h : (compilationFilterAssess r).FilteredReason = "") : r.FilteredReason = "" := by
  unfold compilationFilterAssess at h
  split at h
  · exact h
  · split at h
    · exact absurd (show ("compilation failure" : String) = "" from h) (by decide)
    · exact h

theorem catchingAssessor_reason_persists (r : TestResult)
    (h : (catchingAssessorAssess r).FilteredReason = "") : r.FilteredReason = "" := by
  unfold catchingAssessorAssess at h
  split at h
  · exact h
  · split at h
    · exact absurd (show ("fails on parent code" : String) = "" from h) (by decide)
    · split at h <;> exact h

theorem falsePositive_reason_persists (r : TestResult)
    (h : (falsePositivePatternsAssess r).FilteredReason = "") : r.FilteredReason = "" := by
  unfold falsePositivePatternsAssess at h
  split at h
  · exact h
  · simp only at h
    split at h
    · exact absurd (show ("infrastructure failure" : String) = "" from h) (by decide)
    · split at h
      · exact absurd (show ("undefined variable (likely rename)" : String) = "" from h) (by decide)
      · exact h

theorem truePositive_reason_persists (r : TestResult)
    (h : (truePositivePatternsAssess r).FilteredReason = "") : r.FilteredReason = "" := by
  unfold truePositivePatternsAssess at h
  split at h <;> exact h

theorem llmJudge_reason_persists (o : Option JudgeResponse) (r : TestResult)
    (h : (llmJudgeAssess o r).FilteredReason = "") : r.FilteredReason = "" := by
  unfold llmJudgeAssess at h
  split at h
  · exact h
  · cases o <;> exact h

theorem compilationFilter_inv (r : TestResult) (h : ReasonInv r) :
    ReasonInv (compilationFilterAssess r) := by
  unfold ReasonInv compilationFilterAssess at *
  split
  · exact h
  · split
    · intro _; rfl
    · exact h

theorem catchingAssessor_inv (r : TestResult) (h : ReasonInv r) :
    ReasonInv (catchingAssessorAssess r) := by
  unfold ReasonInv catchingAssessorAssess at *
  split
  · exact h
  · next h0 =>
    split
    · intro _; rfl
    · split
      · intro _; rfl
      · intro hne; exact absurd hne h0

theorem falsePositive_inv (r : TestResult) (h : ReasonInv r) :
    ReasonInv (falsePositivePatternsAssess r) := by
  by_cases h1 : r.FilteredReason = ""
  · cases hc : r.IsCatching
    · have he : falsePositivePatternsAssess r = r := by
        unfold falsePositivePatternsAssess
        rw [if_pos (by simp [hc])]
      rw [he]; exact h
    · unfold falsePositivePatternsAssess
      rw [if_neg (by simp [h1, hc])]
      intro hne
      by_cases hu : (containsStr r.DiffOutput "undefined:" ||
          containsStr r.DiffOutput "undeclared name") = true <;>
        by_cases hi : (containsStr r.DiffOutput "cannot find package" ||
          containsStr r.DiffOutput "connection refused" ||
          containsStr r.DiffOutput "timed out" ||
          containsStr r.DiffOutput "Timeout >") = true <;>
        simp_all
  · rw [falsePositive_noop_of_filtered r h1]; exact h

theorem truePositive_inv (r : TestResult) (h : ReasonInv r) :
    ReasonInv (truePositivePatternsAssess r) := by
  unfold ReasonInv truePositivePatternsAssess at *
  split
  · exact h
  · exact h

theorem llmJudge_inv (o : Option JudgeResponse) (r : TestResult) (h : ReasonInv r) :
    ReasonInv (llmJudgeAssess o r) := by
  by_cases h1 : r.FilteredReason = ""
  · cases hc : r.IsCatching
    · have he : llmJudgeAssess o r = r := by
        unfold llmJudgeAssess
        rw [if_pos (by simp [hc])]
      rw [he]; exact h
    · unfold llmJudgeAssess
      rw [if_neg (by simp [h1, hc])]
      cases o
      · exact h
      · intro hne; exact absurd h1 hne
  · rw [llmJudge_noop_of_filtered o r h1]; exact h

theorem chainEvaluateOne_inv (o : Option JudgeResponse) (r : TestResult) (h : ReasonInv r) :
    ReasonInv (chainEvaluateOne o r) := by
  unfold chainEvaluateOne
  split
  · exact h
  · next h0 =>
    push_neg at h0
    apply llmJudge_inv
    apply truePositive_inv
    apply falsePositive_inv
    apply catchingAssessor_inv
    apply compilationFilter_inv
    intro hne
    exact (hne h0).elim

/-- `TruePositivePatterns` only adjusts `Assessment`; reason and catching
flag are untouched in both branches. -/
theorem truePositive_reason_eq (r : TestResult) :
    (truePositivePatternsAssess r).FilteredReason = r.FilteredReason := by
  unfold truePositivePatternsAssess
  split <;> rfl

theorem truePositive_catching_eq (r : TestResult) :
    (truePositivePatternsAssess r).IsCatching = r.IsCatching := by
  unfold truePositivePatternsAssess
  split <;> rfl

/-- The judge only adjusts `Assessment`, `BehaviorChange` and `Question`. -/
theorem llmJudge_reason_eq (o : Option JudgeResponse) (r : TestResult) :
    (llmJudgeAssess o r).FilteredReason = r.FilteredReason := by
  unfold llmJudgeAssess
  split
  · rfl
  · cases o <;> rfl

theorem llmJudge_catching_eq (o : Option JudgeResponse) (r : TestResult) :
    (llmJudgeAssess o r).IsCatching = r.IsCatching := by
  unfold llmJudgeAssess
  split
  · rfl
  · cases o <;> rfl

theorem compilationFilter_eq_self (r : TestResult) (h1 : r.FilteredReason = "")
    (hm : (containsStr r.ParentOutput "build failed" ||
      containsStr r.ParentOutput "does not compile" ||
      containsStr r.ParentOutput "[build failed]") = false) :
    compilationFilterAssess r = r := by
  unfold compilationFilterAssess
  rw [if_neg (by simp [h1]), if_neg (by simp [hm])]

theorem compilationFilter_reason_of_markers (r : TestResult) (h1 : r.FilteredReason = "")
    (hm : (containsStr r.ParentOutput "build failed" ||
      containsStr r.ParentOutput "does not compile" ||
      containsStr r.ParentOutput "[build failed]") = true) :
    (compilationFilterAssess r).FilteredReason = "compilation failure" := by
  unfold compilationFilterAssess
  rw [if_neg (by simp [h1]), if_pos hm]

theorem catchingAssessor_reason_of_fail (r : TestResult) (h1 : r.FilteredReason = "")
    (hp : r.PassParent = false) :
    (catchingAssessorAssess r).FilteredReason = "fails on parent code" := by
  unfold catchingAssessorAssess
  rw [if_neg (by simp [h1]), if_pos (by simp [hp])]

theorem catchingAssessor_eq_nochange (r : TestResult) (h1 : r.FilteredReason = "")
    (hp : r.PassParent = true) (hf : r.FailDiff = false) :
    catchingAssessorAssess r =
      { r with IsCatching := false, Confidence := 0, Assessment := 0 } := by
  unfold catchingAssessorAssess
  rw [if_neg (by simp [h1]), if_neg (by simp [hp]), if_pos (by simp [hf])]

theorem catchingAssessor_eq_weakCatch (r : TestResult) (h1 : r.FilteredReason = "")
    (hp : r.PassParent = true) (hf : r.FailDiff = true) :
    catchingAssessorAssess r =
      { r with IsCatching := true, Confidence := 1, Assessment := 0.5 } := by
  unfold catchingAssessorAssess
  rw [if_neg (by simp [h1]), if_neg (by simp [hp]), if_neg (by simp [hf])]

theorem falsePositive_noop_of_notCatching (r : TestResult) (h : r.IsCatching = false) :
    falsePositivePatternsAssess r = r := by
  unfold falsePositivePatternsAssess
  rw [if_pos (by simp [h])]

theorem truePositive_noop_of_notCatching (r : TestResult) (h : r.IsCatching = false) :
    truePositivePatternsAssess r = r := by
  unfold truePositivePatternsAssess
  rw [if_pos (by simp [h])]

theorem llmJudge_noop_of_notCatching (o : Option JudgeResponse) (r : TestResult)
    (h : r.IsCatching = false) : llmJudgeAssess o r = r := by
  unfold llmJudgeAssess
  rw [if_pos (by simp [h])]

/-- On an unfiltered weak catch, the false-positive stage's final filter
reason is decided by the undefined-variable and infrastructure signals. -/
theorem falsePositive_reason_active (r : TestResult) (h1 : r.FilteredReason = "")
    (hc : r.IsCatching = true) :
    (falsePositivePatternsAssess r).FilteredReason =
      (if (containsStr r.DiffOutput "cannot find package" ||
          containsStr r.DiffOutput "connection refused" ||
          containsStr r.DiffOutput "timed out" ||
          containsStr r.DiffOutput "Timeout >") then "infrastructure failure"
        else if (containsStr r.DiffOutput "undefined:" ||
          containsStr r.DiffOutput "undeclared name") then "undefined variable (likely rename)"
        else r.FilteredReason) := by
  unfold falsePositivePatternsAssess
  rw [if_neg (by simp [h1, hc])]

theorem falsePositive_catching_active (r : TestResult) (h1 : r.FilteredReason = "")
    (hc : r.IsCatching = true) :
    (falsePositivePatternsAssess r).IsCatching =
      (if ((containsStr r.DiffOutput "undefined:" ||
            containsStr r.DiffOutput "undeclared name") ||
          (containsStr r.DiffOutput "cannot find package" ||
            containsStr r.DiffOutput "connection refused" ||
            containsStr r.DiffOutput "timed out" ||
            containsStr r.DiffOutput "Timeout >")) then false
        else r.IsCatching) := by
  unfold falsePositivePatternsAssess
  rw [if_neg (by simp [h1, hc])]

/-- On an unfiltered weak catch that the false-positive stage does not
filter, the catching flag survives that stage. -/
theorem falsePositive_keeps_catching (r1 : TestResult) (hr : r1.FilteredReason = "")
    (hc : r1.IsCatching = true)
    (h2 : (falsePositivePatternsAssess r1).FilteredReason = "") :
    (falsePositivePatternsAssess r1).IsCatching = true := by
  by_cases hui : ((containsStr r1.DiffOutput "undefined:" ||
        containsStr r1.DiffOutput "undeclared name") ||
      (containsStr r1.DiffOutput "cannot find package" ||
        containsStr r1.DiffOutput "connection refused" ||
        containsStr r1.DiffOutput "timed out" ||
        containsStr r1.DiffOutput "Timeout >")) = true
  · exfalso
    rw [falsePositive_reason_active r1 hr hc] at h2
    rcases Bool.or_eq_true_iff.mp hui with hu | hi
    · by_cases hi2 : (containsStr r1.DiffOutput "cannot find package" ||
          containsStr r1.DiffOutput "connection refused" ||
          containsStr r1.DiffOutput "timed out" ||
          containsStr r1.DiffOutput "Timeout >") = true
      · rw [if_pos hi2] at h2; exact absurd h2 (by decide)
      · rw [if_neg (by simp [hi2]), if_pos hu] at h2; exact absurd h2 (by decide)
    · rw [if_pos hi] at h2; exact absurd h2 (by decide)
  · rw [falsePositive_catching_active r1 hr hc, if_neg (by simp [hui])]
    exact hc

/-- When the chain leaves a record unfiltered, its final `IsCatching` is
exactly `PassParent && FailDiff`. -/
theorem chain_catching_eq (o : Option JudgeResponse) (r : TestResult)
    (h1 : r.FilteredReason = "") (h2 : (chainEvaluateOne o r).FilteredReason = "") :
    (chainEvaluateOne o r).IsCatching = (r.PassParent && r.FailDiff) := by
  unfold chainEvaluateOne at h2 ⊢
  rw [if_neg (by simp [h1])] at h2 ⊢
  rw [llmJudge_reason_eq, truePositive_reason_eq] at h2
  rw [llmJudge_catching_eq, truePositive_catching_eq]
  set r0 : TestResult := { r with Confidence := 1, Assessment := 0 } with hr0
  have h3 : (catchingAssessorAssess (compilationFilterAssess r0)).FilteredReason = "" :=
    falsePositive_reason_persists _ h2
  have h4 : (compilationFilterAssess r0).FilteredReason = "" :=
    catchingAssessor_reason_persists _ h3
  have h1' : r0.FilteredReason = "" := h1
  by_cases hm : (containsStr r0.ParentOutput "build failed" ||
      containsStr r0.ParentOutput "does not compile" ||
      containsStr r0.ParentOutput "[build failed]") = true
  · rw [compilationFilter_reason_of_markers r0 h1' hm] at h4
    exact absurd h4 (by decide)
  · rw [compilationFilter_eq_self r0 h1' (by simpa using hm)] at h2 h3 ⊢
    by_cases hp : r0.PassParent = true
    · by_cases hf : r0.FailDiff = true
      · rw [catchingAssessor_eq_weakCatch r0 h1' hp hf] at h2 ⊢
        rw [falsePositive_keeps_catching { r0 with IsCatching := true, Confidence := 1, Assessment := 0.5 } h1 rfl h2]
        have hp2 : r.PassParent = true := hp
        have hf2 : r.FailDiff = true := hf
        rw [hp2, hf2]
        rfl
      · rw [catchingAssessor_eq_nochange r0 h1' hp (by simpa using hf)]
        rw [falsePositive_noop_of_notCatching _ rfl]
        have hp2 : r.PassParent = true := hp
        have hf2 : r.FailDiff = false := by simpa using hf
        simp [hp2, hf2]
    · rw [catchingAssessor_reason_of_fail r0 h1' (by simpa using hp)] at h3
      exact absurd h3 (by decide)

/-- Every record produced by execution satisfies the reason invariant, and
its catching flag already implies pass-parent and fail-new. -/
theorem executedRecord_inv (env : ExecEnv) (t : GeneratedTest) (m : Mutant) :
    ReasonInv (executedRecord env t m) ∧
      ((executedRecord env t m).IsCatching = true →
        (executedRecord env t m).PassParent = true ∧
          (executedRecord env t m).FailDiff = true) := by
  obtain ⟨m1, w1a, w1b, rp, m2, w2a, w2b, rn⟩ := env
  rcases m1 with _ | e1 <;> rcases w1a with _ | e2 <;> rcases w1b with _ | e3 <;>
    rcases rp with e4 | ⟨p1, o1⟩ <;> rcases m2 with _ | e5 <;> rcases w2a with _ | e6 <;>
    rcases w2b with _ | e7 <;> rcases rn with e8 | ⟨p2, o2⟩ <;>
    (try cases p1) <;> (try cases p2) <;>
    simp [executedRecord, executeCatching, pipelineRecordPair, ReasonInv]

/-! ## Claim theorems -/

/-- C1, counterexample: after execution and assessment, a record can have
`PassParent = true` and `FailDiff = true` yet `IsCatching = false` — the
false-positive stage clears the flag when the new-run output contains
"undefined:".  So the two run-outcome booleans do not fully determine
`isCatching`, refuting the claimed converse. -/
theorem c1_counterexample :
    (chainEvaluateOne none (executedRecord
      { runParent := .ok (true, "ok"), runNew := .ok (false, "undefined: foo") }
      {} {})).PassParent = true ∧
    (chainEvaluateOne none (executedRecord
      { runParent := .ok (true, "ok"), runNew := .ok (false, "undefined: foo") }
      {} {})).FailDiff = true ∧
    (chainEvaluateOne none (executedRecord
      { runParent := .ok (true, "ok"), runNew := .ok (false, "undefined: foo") }
      {} {})).IsCatching = false := by
  decide

/-- C1 (amended): after execution and assessment, `isCatching = true` still
implies `passParent = true` and `failNew = true`; the converse holds only
for records whose `filterReason` is empty (the false-positive stage may
clear `isCatching` on a pass-then-fail record while filtering it). -/
theorem c1_catching_characterization (env : ExecEnv) (t : GeneratedTest) (m : Mutant)
    (o : Option JudgeResponse) :
    ((chainEvaluateOne o (executedRecord env t m)).IsCatching = true →
      (chainEvaluateOne o (executedRecord env t m)).PassParent = true ∧
        (chainEvaluateOne o (executedRecord env t m)).FailDiff = true) ∧
    ((chainEvaluateOne o (executedRecord env t m)).FilteredReason = "" →
      (chainEvaluateOne o (executedRecord env t m)).PassParent = true →
      (chainEvaluateOne o (executedRecord env t m)).FailDiff = true →
      (chainEvaluateOne o (executedRecord env t m)).IsCatching = true) := by
  obtain ⟨hinv, hfwd⟩ := executedRecord_inv env t m
  have hpp : (chainEvaluateOne o (executedRecord env t m)).PassParent =
      (executedRecord env t m).PassParent :=
    congrArg RunFacts.passParent (readFacts_chainEvaluateOne o (executedRecord env t m))
  have hff : (chainEvaluateOne o (executedRecord env t m)).FailDiff =
      (executedRecord env t m).FailDiff :=
    congrArg RunFacts.failDiff (readFacts_chainEvaluateOne o (executedRecord env t m))
  constructor
  · intro hc
    by_cases hred : (chainEvaluateOne o (executedRecord env t m)).FilteredReason = ""
    · by_cases hr1 : (executedRecord env t m).FilteredReason = ""
      · have := chain_catching_eq o (executedRecord env t m) hr1 hred
        rw [hc] at this
        obtain ⟨h5, h6⟩ := Bool.and_eq_true_iff.mp this.symm
        exact ⟨hpp.trans h5, hff.trans h6⟩
      · rw [chainEvaluateOne_noop_of_filtered o _ hr1] at hc ⊢
        exact hfwd hc
    · exact absurd (chainEvaluateOne_inv o _ hinv hred) (by simp [hc])
  · intro hred hp hf
    by_cases hr1 : (executedRecord env t m).FilteredReason = ""
    · have hp2 := hpp.symm.trans hp
      have hf2 := hff.symm.trans hf
      rw [chain_catching_eq o (executedRecord env t m) hr1 hred, hp2, hf2]
      rfl
    · rw [chainEvaluateOne_noop_of_filtered o _ hr1] at hred
      exact absurd hred hr1

/-- Witness for `c1_catching_characterization`: a genuine catch, where the
converse applies. -/
theorem c1_catching_characterization_witness :
    (chainEvaluateOne none (executedRecord
      { runParent := .ok (true, "ok"), runNew := .ok (false, "FAIL: got 1 want 2") }
      {} {})).IsCatching = true :=
  (c1_catching_characterization
      { runParent := .ok (true, "ok"), runNew := .ok (false, "FAIL: got 1 want 2") }
      {} {} none).2 (by decide) (by decide) (by decide)

/-- C4, counterexample: on a successful call the parent workspace (1) is
destroyed only at function exit (deferred), after the new-code workspace
(2) has been created, run and destroyed — the two are simultaneously
live, refuting strict sequencing. -/
theorem c4_counterexample :
    (executeCatching {} {} {}).2.2 =
      [Event.createWs 1, Event.runWs 1, Event.createWs 2, Event.runWs 2,
        Event.destroyWs 2, Event.destroyWs 1] ∧
    neverCoexist (executeCatching {} {} {}).2.2 = false := by
  decide

/-- C4 (amended): every workspace the call creates is destroyed by the end
of the call (deferred cleanup, LIFO), but the parent workspace is released
only at call exit: whenever the new-code workspace is created, the two
workspaces coexist. -/
theorem executeCatching_trace_cases (env : ExecEnv) (t : GeneratedTest) (m : Mutant) :
    (executeCatching env t m).2.2 = [] ∨
    (executeCatching env t m).2.2 = [Event.createWs 1, Event.destroyWs 1] ∨
    (executeCatching env t m).2.2 =
      [Event.createWs 1, Event.runWs 1, Event.destroyWs 1] ∨
    (executeCatching env t m).2.2 =
      [Event.createWs 1, Event.runWs 1, Event.createWs 2,
        Event.destroyWs 2, Event.destroyWs 1] ∨
    (executeCatching env t m).2.2 =
      [Event.createWs 1, Event.runWs 1, Event.createWs 2, Event.runWs 2,
        Event.destroyWs 2, Event.destroyWs 1] := by
  obtain ⟨m1, w1a, w1b, rp, m2, w2a, w2b, rn⟩ := env
  rcases m1 with _ | e1 <;> rcases w1a with _ | e2 <;> rcases w1b with _ | e3 <;>
    rcases rp with e4 | ⟨p1, o1⟩ <;> rcases m2 with _ | e5 <;> rcases w2a with _ | e6 <;>
    rcases w2b with _ | e7 <;> rcases rn with e8 | ⟨p2, o2⟩ <;>
    (try cases p1) <;> simp [executeCatching]

theorem c4_workspace_lifecycle (env : ExecEnv) (t : GeneratedTest) (m : Mutant) :
    ((executeCatching env t m).2.2).count (Event.createWs 1) =
      ((executeCatching env t m).2.2).count (Event.destroyWs 1) ∧
    ((executeCatching env t m).2.2).count (Event.createWs 2) =
      ((executeCatching env t m).2.2).count (Event.destroyWs 2) ∧
    (Event.createWs 2 ∈ (executeCatching env t m).2.2 →
      neverCoexist (executeCatching env t m).2.2 = false) := by
  rcases executeCatching_trace_cases env t m with h | h | h | h | h <;> rw [h] <;> decide

/-- Witness for `c4_workspace_lifecycle` at a concrete environment. -/
theorem c4_workspace_lifecycle_witness :
    neverCoexist (executeCatching {} {} {}).2.2 = false :=
  (c4_workspace_lifecycle {} {} {}).2.2 (by decide)

/-- C5: a non-empty `filterReason` freezes a record — every assessor (and
the whole chain) is the identity on it — and, on every record produced by
execution and assessment, a set `filterReason` forces `isCatching = false`. -/
theorem c5_filtered_frozen :
    (∀ (o : Option JudgeResponse) (r : TestResult), r.FilteredReason ≠ "" →
      compilationFilterAssess r = r ∧ catchingAssessorAssess r = r ∧
      falsePositivePatternsAssess r = r ∧ truePositivePatternsAssess r = r ∧
      llmJudgeAssess o r = r ∧ chainEvaluateOne o r = r) ∧
    (∀ (env : ExecEnv) (t : GeneratedTest) (m : Mutant) (o : Option JudgeResponse),
      (chainEvaluateOne o (executedRecord env t m)).FilteredReason ≠ "" →
      (chainEvaluateOne o (executedRecord env t m)).IsCatching = false) := by
  constructor
  · intro o r h
    exact ⟨compilationFilter_noop_of_filtered r h, catchingAssessor_noop_of_filtered r h,
      falsePositive_noop_of_filtered r h, truePositive_noop_of_filtered r h,
      llmJudge_noop_of_filtered o r h, chainEvaluateOne_noop_of_filtered o r h⟩
  · intro env t m o
    exact chainEvaluateOne_inv o _ (executedRecord_inv env t m).1

/-- Witness for `c5_filtered_frozen` at a concrete filtered record and a
concrete failing environment. -/
theorem c5_filtered_frozen_witness :
    chainEvaluateOne none { FilteredReason := "compilation failure" } =
      ({ FilteredReason := "compilation failure" } : TestResult) ∧
    (chainEvaluateOne none (executedRecord { runParent := .error "boom" } {} {})).IsCatching
      = false :=
  ⟨(c5_filtered_frozen.1 none { FilteredReason := "compilation failure" }
      (by decide)).2.2.2.2.2,
    c5_filtered_frozen.2 { runParent := .error "boom" } {} {} none (by decide)⟩

/-- C6, counterexample: an infrastructure error (the parent-run invocation
failing) is propagated by the executor as a hard error, but the pipeline
then records it on the TestResult as the filter reason
"execution error: …", refuting "never recorded as a filter reason". -/
theorem c6_counterexample :
    (executeCatching { runParent := .error "boom" } {} {}).2.1 =
      some "running test on parent: boom" ∧
    (executedRecord { runParent := .error "boom" } {} {}).FilteredReason =
      "execution error: running test on parent: boom" := by
  decide

/-- C6 (amended): infrastructure errors are propagated out of the executor
as hard errors with no filter reason set by the executor itself; the
pipeline loop downgrades each to `FilteredReason = "execution error: …"`
on that pair's record and continues, producing one record per pair. -/
theorem c6_infra_error_handling :
    (∀ (env : ExecEnv) (t : GeneratedTest) (m : Mutant) (e : String),
      (executeCatching env t m).2.1 = some e →
      (executeCatching env t m).1.FilteredReason = "" ∧
      (executedRecord env t m).FilteredReason = "execution error: " ++ e) ∧
    (∀ pairs : List (ExecEnv × GeneratedTest × Mutant),
      (pipelineRunPairs pairs).length = pairs.length) := by
  constructor
  · intro env t m e
    obtain ⟨m1, w1a, w1b, rp, m2, w2a, w2b, rn⟩ := env
    rcases m1 with _ | e1 <;> rcases w1a with _ | e2 <;> rcases w1b with _ | e3 <;>
      rcases rp with e4 | ⟨p1, o1⟩ <;> rcases m2 with _ | e5 <;> rcases w2a with _ | e6 <;>
      rcases w2b with _ | e7 <;> rcases rn with e8 | ⟨p2, o2⟩ <;>
      (try cases p1) <;>
      simp [executeCatching, executedRecord, pipelineRecordPair] <;>
      (intro h; subst h; rfl)
  · intro pairs
    simp [pipelineRunPairs]

/-- Witness for `c6_infra_error_handling` at a concrete failing pair. -/
theorem c6_infra_error_handling_witness :
    (executeCatching { runParent := .error "boom" } {} {}).1.FilteredReason = "" ∧
    (executedRecord { runParent := .error "boom" } {} {}).FilteredReason =
      "execution error: running test on parent: boom" :=
  c6_infra_error_handling.1 { runParent := .error "boom" } {} {}
    "running test on parent: boom" (by decide)

/-- C7: when the judge call fails or its response is unparsable
(`oracle = none`), the judge stage leaves an unfiltered catching record
entirely unchanged, so the final assessment is the pre-blend rule-based
assessment. -/
theorem c7_judge_failure_noop (r : TestResult) (h1 : r.FilteredReason = "")
    (h2 : r.IsCatching = true) :
    llmJudgeAssess none r = r ∧ (llmJudgeAssess none r).Assessment = r.Assessment := by
  have h : llmJudgeAssess none r = r := by
    unfold llmJudgeAssess
    rw [if_neg (by simp [h1, h2])]
  exact ⟨h, by rw [h]⟩

/-- Witness for `c7_judge_failure_noop`. -/
theorem c7_judge_failure_noop_witness :
    llmJudgeAssess none { IsCatching := true, Assessment := 0.5 } =
      ({ IsCatching := true, Assessment := 0.5 } : TestResult) ∧
    (llmJudgeAssess none { IsCatching := true, Assessment := 0.5 }).Assessment =
      ({ IsCatching := true, Assessment := 0.5 } : TestResult).Assessment :=
  c7_judge_failure_noop { IsCatching := true, Assessment := 0.5 } rfl rfl

/-- C8: on an unfiltered catching record with a parsed oracle response, the
final assessment is `0.4 · ruleScore + 0.6 · oracleScore` clamped to
`[-1, 1]`. -/
theorem c8_blend_formula (r : TestResult) (jr : JudgeResponse)
    (h1 : r.FilteredReason = "") (h2 : r.IsCatching = true) :
    (llmJudgeAssess (some jr) r).Assessment =
      max (-1) (min 1 (0.4 * r.Assessment + 0.6 * jr.assessment)) := by
  unfold llmJudgeAssess
  rw [if_neg (by simp [h1, h2])]
  show (if (if r.Assessment * 0.4 + jr.assessment * 0.6 > 1 then 1
      else r.Assessment * 0.4 + jr.assessment * 0.6) < -1 then -1
    else if r.Assessment * 0.4 + jr.assessment * 0.6 > 1 then 1
      else r.Assessment * 0.4 + jr.assessment * 0.6) =
    max (-1) (min 1 (0.4 * r.Assessment + 0.6 * jr.assessment))
  have hx : (0.4 : ℚ) * r.Assessment + 0.6 * jr.assessment =
      r.Assessment * 0.4 + jr.assessment * 0.6 := by ring
  rw [hx]
  rcases lt_or_le (1 : ℚ) (r.Assessment * 0.4 + jr.assessment * 0.6) with hgt | hle
  · rw [if_pos hgt, if_neg (by norm_num), min_eq_left hgt.le,
      max_eq_right (by norm_num : (-1 : ℚ) ≤ 1)]
  · rw [if_neg (not_lt.mpr hle)]
    rcases lt_or_le (r.Assessment * 0.4 + jr.assessment * 0.6) (-1 : ℚ) with hlt | hge
    · rw [if_pos hlt, min_eq_right hle, max_eq_left hlt.le]
    · rw [if_neg (not_lt.mpr hge), min_eq_right hle, max_eq_right hge]

/-- Witness for `c8_blend_formula`. -/
theorem c8_blend_formula_witness :
    (llmJudgeAssess (some { assessment := 1 })
        { IsCatching := true, Assessment := 0.5 }).Assessment =
      max (-1) (min 1 (0.4 * ({ IsCatching := true, Assessment := 0.5 } :
        TestResult).Assessment + 0.6 * ({ assessment := 1 } : JudgeResponse).assessment)) :=
  c8_blend_formula { IsCatching := true, Assessment := 0.5 } { assessment := 1 } rfl rfl

/-! ## Idempotence of the chain

The next definitions name the assessment arithmetic of the two pattern
stages and the judge blend, so that the value a chain run computes can be
written down once and compared across runs. -/

theorem falsePositive_eq_noSignals (r : TestResult) (h1 : r.FilteredReason = "")
    (hc : r.IsCatching = true)
    (hu : (containsStr r.DiffOutput "undefined:" ||
      containsStr r.DiffOutput "undeclared name") = false)
    (hi : (containsStr r.DiffOutput "cannot find package" ||
      containsStr r.DiffOutput "connection refused" ||
      containsStr r.DiffOutput "timed out" ||
      containsStr r.DiffOutput "Timeout >") = false) :
    falsePositivePatternsAssess r =
      { r with Assessment := fppScore r.Test.TestCode r.DiffOutput r.Assessment } := by
  unfold falsePositivePatternsAssess fppScore
  rw [if_neg (by simp [h1, hc])]
  simp [hu, hi]

theorem truePositive_eq_active (r : TestResult) (h1 : r.FilteredReason = "")
    (hc : r.IsCatching = true) :
    truePositivePatternsAssess r =
      { r with Assessment := tppScore r.DiffOutput r.Assessment } := by
  unfold truePositivePatternsAssess tppScore
  rw [if_neg (by simp [h1, hc])]

theorem llmJudge_some_active (jr : JudgeResponse) (r : TestResult)
    (h1 : r.FilteredReason = "") (hc : r.IsCatching = true) :
    llmJudgeAssess (some jr) r =
      { r with Assessment := judgeBlend r.Assessment jr.assessment,
               BehaviorChange := jr.behaviorChange, Question := jr.question } := by
  unfold llmJudgeAssess judgeBlend
  rw [if_neg (by simp [h1, hc])]

theorem llmJudge_none_eq (r : TestResult) : llmJudgeAssess none r = r := by
  unfold llmJudgeAssess
  split <;> rfl

/-- An unfiltered result of the false-positive stage on a weak catch means
neither the undefined-variable nor the infrastructure signal fired. -/
theorem falsePositive_signals_false (r1 : TestResult) (hr : r1.FilteredReason = "")
    (hc : r1.IsCatching = true)
    (h2 : (falsePositivePatternsAssess r1).FilteredReason = "") :
    (containsStr r1.DiffOutput "undefined:" ||
      containsStr r1.DiffOutput "undeclared name") = false ∧
    (containsStr r1.DiffOutput "cannot find package" ||
      containsStr r1.DiffOutput "connection refused" ||
      containsStr r1.DiffOutput "timed out" ||
      containsStr r1.DiffOutput "Timeout >") = false := by
  rw [falsePositive_reason_active r1 hr hc] at h2
  by_cases hi : (containsStr r1.DiffOutput "cannot find package" ||
      containsStr r1.DiffOutput "connection refused" ||
      containsStr r1.DiffOutput "timed out" ||
      containsStr r1.DiffOutput "Timeout >") = true
  · rw [if_pos hi] at h2
    exact absurd h2 (by decide)
  · by_cases hu : (containsStr r1.DiffOutput "undefined:" ||
        containsStr r1.DiffOutput "undeclared name") = true
    · rw [if_neg (by simp [hi]), if_pos hu] at h2
      exact absurd h2 (by decide)
    · exact ⟨by simpa using hu, by simpa using hi⟩

/-- Full evaluation of the chain on a pass-parent, no-behavioral-change
record. -/
theorem chain_noChange_eval (o : Option JudgeResponse) (x : TestResult)
    (h1 : x.FilteredReason = "") (hm : NoMarkers x)
    (hp : x.PassParent = true) (hf : x.FailDiff = false) :
    chainEvaluateOne o x = { x with IsCatching := false, Confidence := 0, Assessment := 0 } := by
  unfold chainEvaluateOne
  rw [if_neg (by simp [h1])]
  have s1 : compilationFilterAssess { x with Confidence := 1, Assessment := 0 } = { x with Confidence := 1, Assessment := 0 } :=
    compilationFilter_eq_self _ h1 hm
  rw [s1]
  have s2 : catchingAssessorAssess { x with Confidence := 1, Assessment := 0 } = { x with IsCatching := false, Confidence := 0, Assessment := 0 } :=
    catchingAssessor_eq_nochange _ h1 hp (by simpa using hf)
  rw [s2]
  have s3 : falsePositivePatternsAssess { x with IsCatching := false, Confidence := 0, Assessment := 0 } = { x with IsCatching := false, Confidence := 0, Assessment := 0 } :=
    falsePositive_noop_of_notCatching _ rfl
  rw [s3]
  have s4 : truePositivePatternsAssess { x with IsCatching := false, Confidence := 0, Assessment := 0 } = { x with IsCatching := false, Confidence := 0, Assessment := 0 } :=
    truePositive_noop_of_notCatching _ rfl
  rw [s4]
  exact llmJudge_noop_of_notCatching o _ rfl

/-- Full evaluation of the rule chain (no oracle) on a weak catch with no
filtering signals. -/
theorem chain_weakCatch_eval_none (x : TestResult)
    (h1 : x.FilteredReason = "") (hm : NoMarkers x)
    (hp : x.PassParent = true) (hf : x.FailDiff = true)
    (hu : (containsStr x.DiffOutput "undefined:" ||
      containsStr x.DiffOutput "undeclared name") = false)
    (hi : (containsStr x.DiffOutput "cannot find package" ||
      containsStr x.DiffOutput "connection refused" ||
      containsStr x.DiffOutput "timed out" ||
      containsStr x.DiffOutput "Timeout >") = false) :
    chainEvaluateOne none x = { x with IsCatching := true, Confidence := 1, Assessment := tppScore x.DiffOutput (fppScore x.Test.TestCode x.DiffOutput 0.5) } := by
  unfold chainEvaluateOne
  rw [if_neg (by simp [h1])]
  have s1 : compilationFilterAssess { x with Confidence := 1, Assessment := 0 } = { x with Confidence := 1, Assessment := 0 } :=
    compilationFilter_eq_self _ h1 hm
  rw [s1]
  have s2 : catchingAssessorAssess { x with Confidence := 1, Assessment := 0 } = { x with IsCatching := true, Confidence := 1, Assessment := 0.5 } :=
    catchingAssessor_eq_weakCatch _ h1 hp hf
  rw [s2]
  have s3 : falsePositivePatternsAssess { x with IsCatching := true, Confidence := 1, Assessment := 0.5 } = { x with IsCatching := true, Confidence := 1, Assessment := fppScore x.Test.TestCode x.DiffOutput 0.5 } :=
    falsePositive_eq_noSignals _ h1 rfl hu hi
  rw [s3]
  have s4 : truePositivePatternsAssess { x with IsCatching := true, Confidence := 1, Assessment := fppScore x.Test.TestCode x.DiffOutput 0.5 } = { x with IsCatching := true, Confidence := 1, Assessment := tppScore x.DiffOutput (fppScore x.Test.TestCode x.DiffOutput 0.5) } :=
    truePositive_eq_active _ h1 rfl
  rw [s4]
  exact llmJudge_none_eq _

/-- Full evaluation of the chain with a parsed oracle response on a weak
catch with no filtering signals. -/
theorem chain_weakCatch_eval_some (jr : JudgeResponse) (x : TestResult)
    (h1 : x.FilteredReason = "") (hm : NoMarkers x)
    (hp : x.PassParent = true) (hf : x.FailDiff = true)
    (hu : (containsStr x.DiffOutput "undefined:" ||
      containsStr x.DiffOutput "undeclared name") = false)
    (hi : (containsStr x.DiffOutput "cannot find package" ||
      containsStr x.DiffOutput "connection refused" ||
      containsStr x.DiffOutput "timed out" ||
      containsStr x.DiffOutput "Timeout >") = false) :
    chainEvaluateOne (some jr) x = { x with IsCatching := true, Confidence := 1, Assessment := judgeBlend (tppScore x.DiffOutput (fppScore x.Test.TestCode x.DiffOutput 0.5)) jr.assessment, BehaviorChange := jr.behaviorChange, Question := jr.question } := by
  unfold chainEvaluateOne
  rw [if_neg (by simp [h1])]
  have s1 : compilationFilterAssess { x with Confidence := 1, Assessment := 0 } = { x with Confidence := 1, Assessment := 0 } :=
    compilationFilter_eq_self _ h1 hm
  rw [s1]
  have s2 : catchingAssessorAssess { x with Confidence := 1, Assessment := 0 } = { x with IsCatching := true, Confidence := 1, Assessment := 0.5 } :=
    catchingAssessor_eq_weakCatch _ h1 hp hf
  rw [s2]
  have s3 : falsePositivePatternsAssess { x with IsCatching := true, Confidence := 1, Assessment := 0.5 } = { x with IsCatching := true, Confidence := 1, Assessment := fppScore x.Test.TestCode x.DiffOutput 0.5 } :=
    falsePositive_eq_noSignals _ h1 rfl hu hi
  rw [s3]
  have s4 : truePositivePatternsAssess { x with IsCatching := true, Confidence := 1, Assessment := fppScore x.Test.TestCode x.DiffOutput 0.5 } = { x with IsCatching := true, Confidence := 1, Assessment := tppScore x.DiffOutput (fppScore x.Test.TestCode x.DiffOutput 0.5) } :=
    truePositive_eq_active _ h1 rfl
  rw [s4]
  exact llmJudge_some_active jr _ h1 rfl

/-- C9: evaluating the assessment chain a second time on an
already-evaluated record, with no fields mutated in between, reproduces
the result of the first run exactly (with the same oracle response): the
stages are pure functions of the record's current fields. -/
theorem c9_chain_idempotent (o : Option JudgeResponse) (r : TestResult) :
    chainEvaluateOne o (chainEvaluateOne o r) = chainEvaluateOne o r := by
  by_cases h1 : r.FilteredReason = ""
  case neg =>
    have h := chainEvaluateOne_noop_of_filtered o r h1
    simp only [h]
  case pos =>
    by_cases hb : (chainEvaluateOne o r).FilteredReason = ""
    case neg => exact chainEvaluateOne_noop_of_filtered o _ hb
    case pos =>
      unfold chainEvaluateOne at hb
      rw [if_neg (by simp [h1])] at hb
      rw [llmJudge_reason_eq, truePositive_reason_eq] at hb
      have h3 : (catchingAssessorAssess (compilationFilterAssess
          { r with Confidence := 1, Assessment := 0 })).FilteredReason = "" :=
        falsePositive_reason_persists _ hb
      have h4 : (compilationFilterAssess
          { r with Confidence := 1, Assessment := 0 }).FilteredReason = "" :=
        catchingAssessor_reason_persists _ h3
      by_cases hm : (containsStr r.ParentOutput "build failed" ||
          containsStr r.ParentOutput "does not compile" ||
          containsStr r.ParentOutput "[build failed]") = true
      · rw [compilationFilter_reason_of_markers
          { r with Confidence := 1, Assessment := 0 } h1 hm] at h4
        exact absurd h4 (by decide)
      · have hmf : NoMarkers r := by simpa [NoMarkers] using hm
        rw [compilationFilter_eq_self { r with Confidence := 1, Assessment := 0 }
          h1 hmf] at hb h3
        by_cases hp : r.PassParent = true
        case neg =>
          rw [catchingAssessor_reason_of_fail { r with Confidence := 1, Assessment := 0 }
            h1 (by simpa using hp)] at h3
          exact absurd h3 (by decide)
        case pos =>
          by_cases hf : r.FailDiff = true
          case neg =>
            have E1 := chain_noChange_eval o r h1 hmf hp (by simpa using hf)
            have E2 : chainEvaluateOne o { r with IsCatching := false, Confidence := 0, Assessment := 0 } = { r with IsCatching := false, Confidence := 0, Assessment := 0 } :=
              chain_noChange_eval o { r with IsCatching := false, Confidence := 0, Assessment := 0 } h1 hmf hp (by simpa using hf)
            rw [E1]
            exact E2
          case pos =>
            rw [catchingAssessor_eq_weakCatch { r with Confidence := 1, Assessment := 0 }
              h1 hp hf] at hb
            obtain ⟨hu0, hi0⟩ := falsePositive_signals_false
              { r with IsCatching := true, Confidence := 1, Assessment := 0.5 } h1 rfl hb
            have hu : (containsStr r.DiffOutput "undefined:" ||
                containsStr r.DiffOutput "undeclared name") = false := hu0
            have hi : (containsStr r.DiffOutput "cannot find package" ||
                containsStr r.DiffOutput "connection refused" ||
                containsStr r.DiffOutput "timed out" ||
                containsStr r.DiffOutput "Timeout >") = false := hi0
            cases o with
            | none =>
              have E1 := chain_weakCatch_eval_none r h1 hmf hp hf hu hi
              have E2 : chainEvaluateOne none { r with IsCatching := true, Confidence := 1, Assessment := tppScore r.DiffOutput (fppScore r.Test.TestCode r.DiffOutput 0.5) } = { r with IsCatching := true, Confidence := 1, Assessment := tppScore r.DiffOutput (fppScore r.Test.TestCode r.DiffOutput 0.5) } :=
                chain_weakCatch_eval_none { r with IsCatching := true, Confidence := 1, Assessment := tppScore r.DiffOutput (fppScore r.Test.TestCode r.DiffOutput 0.5) } h1 hmf hp hf hu hi
              rw [E1]
              exact E2
            | some jr =>
              have E1 := chain_weakCatch_eval_some jr r h1 hmf hp hf hu hi
              have E2 : chainEvaluateOne (some jr) { r with IsCatching := true, Confidence := 1, Assessment := judgeBlend (tppScore r.DiffOutput (fppScore r.Test.TestCode r.DiffOutput 0.5)) jr.assessment, BehaviorChange := jr.behaviorChange, Question := jr.question } = { r with IsCatching := true, Confidence := 1, Assessment := judgeBlend (tppScore r.DiffOutput (fppScore r.Test.TestCode r.DiffOutput 0.5)) jr.assessment, BehaviorChange := jr.behaviorChange, Question := jr.question } :=
                chain_weakCatch_eval_some jr { r with IsCatching := true, Confidence := 1, Assessment := judgeBlend (tppScore r.DiffOutput (fppScore r.Test.TestCode r.DiffOutput 0.5)) jr.assessment, BehaviorChange := jr.behaviorChange, Question := jr.question } h1 hmf hp hf hu hi
              rw [E1]
              exact E2

/-! ## `ApplyMutant` (`internal/lang/golang.go`)

Go byte strings are modelled as `List Char`.  `strings.Replace(s, old,
new, 1)` replaces the first occurrence of `old` (for empty `old` it
inserts `new` at the start). -/

theorem replaceOnce_of_prefix (o m s : List Char) (h : o.isPrefixOf s) :
    replaceOnce o m s = m ++ s.drop o.length := by
  cases s with
  | nil =>
    have h0 : o = [] := List.prefix_nil.mp (List.isPrefixOf_iff_prefix.mp h)
    simp [replaceOnce, h0]
  | cons c rest => simp [replaceOnce, h]

/-- Replacing a snippet by itself changes nothing. -/
theorem replaceOnce_self (o : List Char) : ∀ s : List Char, replaceOnce o o s = s := by
  intro s
  induction s with
  | nil =>
    unfold replaceOnce
    split
    · next h => rw [List.prefix_nil.mp (List.isPrefixOf_iff_prefix.mp h)]
    · rfl
  | cons c rest ih =>
    unfold replaceOnce
    split
    · next h =>
      obtain ⟨t, ht⟩ := List.isPrefixOf_iff_prefix.mp h
      rw [← ht, List.drop_left]
    · rw [ih]

/-- When the snippet does not occur, the source is unchanged. -/
theorem replaceOnce_of_not_infix (o m : List Char) :
    ∀ s : List Char, ¬(o <:+: s) → replaceOnce o m s = s := by
  intro s
  induction s with
  | nil =>
    intro h
    unfold replaceOnce
    rw [if_neg]
    intro hp
    exact h (List.isPrefixOf_iff_prefix.mp hp).isInfix
  | cons c rest ih =>
    intro h
    unfold replaceOnce
    rw [if_neg, ih (fun hi => h (List.infix_cons_iff.mpr (Or.inr hi)))]
    intro hp
    exact h (List.infix_cons_iff.mpr (Or.inl (List.isPrefixOf_iff_prefix.mp hp)))

/-- When the snippet occurs and differs from its replacement, the result
differs from the source. -/
theorem replaceOnce_ne_of_infix (o m : List Char) (hom : o ≠ m) :
    ∀ s : List Char, o <:+: s → replaceOnce o m s ≠ s := by
  intro s
  induction s with
  | nil =>
    intro h
    have h0 : o = [] := by
      have := List.eq_nil_of_infix_nil h
      exact this
    subst h0
    unfold replaceOnce
    rw [if_pos (by simp)]
    intro hm
    exact hom hm.symm
  | cons c rest ih =>
    intro h
    unfold replaceOnce
    split
    · next hp =>
      obtain ⟨t, ht⟩ := List.isPrefixOf_iff_prefix.mp hp
      rw [← ht, List.drop_left]
      intro he
      exact hom (List.append_cancel_right he).symm
    · next hp =>
      have hi : o <:+: rest := by
        rcases List.infix_cons_iff.mp h with hpre | hi
        · exact absurd (List.isPrefixOf_iff_prefix.mpr hpre) (by simpa using hp)
        · exact hi
      intro he
      exact ih hi (List.cons_injective.eq_iff.mp he)

/-- `replaceOnce` replaces at most the first occurrence: either nothing
changes, or the source splits around a leftmost occurrence of `old` and
exactly that occurrence is replaced. -/
theorem replaceOnce_first_occurrence (o m : List Char) :
    ∀ s : List Char, replaceOnce o m s = s ∨
      ∃ a b, s = a ++ o ++ b ∧ replaceOnce o m s = a ++ m ++ b ∧
        ∀ a' b', s = a' ++ o ++ b' → a.length ≤ a'.length := by
  intro s
  induction s with
  | nil =>
    unfold replaceOnce
    split
    · next h =>
      have h0 : o = [] := List.prefix_nil.mp (List.isPrefixOf_iff_prefix.mp h)
      subst h0
      right
      exact ⟨[], [], by simp, by simp, fun a' b' _ => Nat.zero_le _⟩
    · exact Or.inl rfl
  | cons c rest ih =>
    unfold replaceOnce
    split
    · next hp =>
      obtain ⟨t, ht⟩ := List.isPrefixOf_iff_prefix.mp hp
      right
      refine ⟨[], t, by simp [ht.symm], ?_, fun a' b' _ => Nat.zero_le _⟩
      rw [← ht, List.drop_left]
      simp
    · next hp =>
      rcases ih with h0 | ⟨a, b, hs, hr, hmin⟩
      · exact Or.inl (by rw [h0])
      · right
        refine ⟨c :: a, b, by simp [hs], by simp [hr], ?_⟩
        intro a' b' hs'
        cases a' with
        | nil =>
          exfalso
          apply hp
          apply List.isPrefixOf_iff_prefix.mpr
          simp only [List.nil_append] at hs'
          exact hs' ▸ (List.prefix_append o b')
        | cons c' a₀ =>
          simp only [List.cons_append, List.cons.injEq] at hs'
          simpa using Nat.succ_le_succ (hmin a₀ b' hs'.2)

/-- C10: `ApplyMutant` replaces at most the first occurrence of the
original snippet; it returns the "snippet not found" error exactly when
the replacement result is byte-identical to the input; in particular it
errors whenever the original equals the mutated snippet, even if the
snippet is present, and succeeds with a changed output whenever the
snippet occurs and differs from its replacement. -/
theorem c10_applyMutant_spec (s o m : List Char) :
    (ApplyMutant s o m = Except.error "original snippet not found in source" ↔
      replaceOnce o m s = s) ∧
    ApplyMutant s o o = Except.error "original snippet not found in source" ∧
    (o <:+: s → o ≠ m → ∃ out, ApplyMutant s o m = Except.ok out ∧ out ≠ s) ∧
    (replaceOnce o m s = s ∨
      ∃ a b, s = a ++ o ++ b ∧ replaceOnce o m s = a ++ m ++ b ∧
        ∀ a' b', s = a' ++ o ++ b' → a.length ≤ a'.length) := by
  refine ⟨?_, ?_, ?_, replaceOnce_first_occurrence o m s⟩
  · unfold ApplyMutant
    dsimp only
    split
    · next h => simp [h]
    · next h => simp [h]
  · unfold ApplyMutant
    dsimp only
    rw [if_pos (replaceOnce_self o s)]
  · intro hocc hom
    have hne := replaceOnce_ne_of_infix o m hom s hocc
    refine ⟨replaceOnce o m s, ?_, hne⟩
    unfold ApplyMutant
    dsimp only
    rw [if_neg hne]

/-- Witness for `c10_applyMutant_spec`: in "abc", replacing "b" by "b"
errors even though "b" occurs; replacing "b" by "x" succeeds and changes
the source. -/
theorem c10_applyMutant_spec_witness :
    ApplyMutant ['a', 'b', 'c'] ['b'] ['b'] =
      Except.error "original snippet not found in source" ∧
    ∃ out, ApplyMutant ['a', 'b', 'c'] ['b'] ['x'] = Except.ok out ∧
      out ≠ ['a', 'b', 'c'] :=
  ⟨(c10_applyMutant_spec ['a', 'b', 'c'] ['b'] ['b']).2.1,
    (c10_applyMutant_spec ['a', 'b', 'c'] ['b'] ['x']).2.2.1 (by decide) (by decide)⟩

/-! ## Isolated workspace (`internal/runner/tempdir.go`)

The real project tree is an immutable tree of directories and files
(`RTree`); the temp-dir workspace is a tree that may also contain
symbolic links (`WTree`), whose targets are absolute paths under the real
root (the Go code links to `filepath.Join(moduleDir, name)` and, in
`copyDir`, to the real source path).  Paths are lists of components.
Directory listings are association lists in directory order.  Operations
that touch the disk return `Option`; `none` is an I/O error.

`os.WriteFile` (O_CREATE|O_TRUNC|O_WRONLY, no O_NOFOLLOW) follows a
symlink at any component, including the last: writing to a workspace path
whose entry is a file symlink writes the real file. `os.MkdirAll` stats
through symlinks and creates the missing suffix. -/

/-- C3: the engine does write the real project root.  On a module with a
top-level directory `pkg` holding `pkg/file.go`, a fresh workspace
materializes `pkg` with `copyDir` (file symlinks), and `os.WriteFile` then
follows the `file.go` symlink and overwrites the real file's bytes. -/
theorem c3_override_writes_real_root :
    NewTempDir (RTree.dir [("pkg", RTree.dir [("file.go", RTree.file "original")])]) =
      some (WTree.dir [("pkg", WTree.link ["pkg"])]) ∧
    (OverwriteFile
        (RTree.dir [("pkg", RTree.dir [("file.go", RTree.file "original")])])
        (WTree.dir [("pkg", WTree.link ["pkg"])]) ["pkg", "file.go"] "MUTATED").map
      (fun rw => readReal rw.1 ["pkg", "file.go"]) = some (some "MUTATED") ∧
    readReal (RTree.dir [("pkg", RTree.dir [("file.go", RTree.file "original")])])
      ["pkg", "file.go"] = some "original" := by
  refine ⟨rfl, ?_, rfl⟩
  simp [OverwriteFile, overwriteFinish, mkdirAllWs, writeFileWs, writeReal,
    copyDir, copyEntries, findEntry, setEntry, rlookup, readReal]

/-! ### Association-list and lookup lemmas -/

theorem findEntry_setEntry_same {α : Type} (es : List (String × α)) (n : String) (v : α) :
    findEntry (setEntry es n v) n = some v := by
  induction es with
  | nil => simp [setEntry, findEntry]
  | cons e rest ih =>
    obtain ⟨m, t⟩ := e
    by_cases h : m = n
    · simp [setEntry, findEntry, h]
    · simp [setEntry, findEntry, h, ih]

theorem findEntry_setEntry_ne {α : Type} (es : List (String × α)) (n k : String) (v : α)
    (h : k ≠ n) : findEntry (setEntry es n v) k = findEntry es k := by
  induction es with
  | nil => simp [setEntry, findEntry, Ne.symm h]
  | cons e rest ih =>
    obtain ⟨m, t⟩ := e
    by_cases hm : m = n
    · subst hm
      simp [setEntry, findEntry, Ne.symm h]
    · simp only [setEntry, if_neg hm, findEntry]
      by_cases hk : m = k
      · simp [hk]
      · simp [hk, ih]

theorem findEntry_removeEntry_ne {α : Type} (es : List (String × α)) (n k : String)
    (h : k ≠ n) : findEntry (removeEntry es n) k = findEntry es k := by
  induction es with
  | nil => simp [removeEntry]
  | cons e rest ih =>
    obtain ⟨m, t⟩ := e
    by_cases hm : m = n
    · subst hm
      simp [removeEntry, findEntry, Ne.symm h]
    · simp only [removeEntry, if_neg hm, findEntry]
      by_cases hk : m = k
      · simp [hk]
      · simp [hk, ih]

theorem setEntry_setEntry {α : Type} (es : List (String × α)) (n : String) (a b : α) :
    setEntry (setEntry es n a) n b = setEntry es n b := by
  induction es with
  | nil => simp [setEntry]
  | cons e rest ih =>
    obtain ⟨m, t⟩ := e
    by_cases hm : m = n <;> simp [setEntry, hm, ih]

theorem setEntry_eq_of_findEntry {α : Type} (es : List (String × α)) (n : String) (v : α)
    (h : findEntry es n = some v) : setEntry es n v = es := by
  induction es with
  | nil => simp [findEntry] at h
  | cons e rest ih =>
    obtain ⟨m, t⟩ := e
    by_cases hm : m = n
    · subst hm
      simp [findEntry] at h
      simp [setEntry, h]
    · simp [findEntry, hm] at h
      simp [setEntry, hm, ih h]

theorem findEntry_map {α β : Type} (f : String → α → β) (es : List (String × α)) (n : String) :
    findEntry (es.map fun e => (e.1, f e.1 e.2)) n = (findEntry es n).map (f n) := by
  induction es with
  | nil => simp [findEntry]
  | cons e rest ih =>
    obtain ⟨m, t⟩ := e
    by_cases hm : m = n
    · subst hm
      simp [findEntry]
    · simp [findEntry, hm, ih]

theorem rlookup_append (u v : Path) (t : RTree) :
    rlookup (u ++ v) t = (rlookup u t).bind (rlookup v) := by
  induction u generalizing t with
  | nil => simp [rlookup]
  | cons n u' ih =>
    cases t with
    | file d => simp [rlookup]
    | dir es =>
      simp only [List.cons_append, rlookup]
      cases findEntry es n with
      | none => simp
      | some t' => simp [ih]

theorem copyEntries_eq_map (p : Path) (es : List (String × RTree)) :
    copyEntries p es = es.map fun e => (e.1, copyDir (p ++ [e.1]) e.2) := by
  induction es with
  | nil => simp [copyEntries]
  | cons e rest ih =>
    obtain ⟨n, t⟩ := e
    cases t with
    | file d => simp [copyEntries, copyDir, ih]
    | dir es' => simp [copyEntries, copyDir, ih]

theorem findEntry_copyEntries (p : Path) (es : List (String × RTree)) (n : String) :
    findEntry (copyEntries p es) n = (findEntry es n).map (copyDir (p ++ [n])) := by
  rw [copyEntries_eq_map]
  exact findEntry_map (fun k t => copyDir (p ++ [k]) t) es n

/-- `readReal` of a directory at a nonempty path looks up the head entry. -/
theorem readReal_dir_cons (es : List (String × RTree)) (n : String) (q : Path) :
    readReal (.dir es) (n :: q) =
      match findEntry es n with
      | some t => readReal t q
      | none => none := by
  simp only [readReal, rlookup]
  cases findEntry es n <;> rfl

theorem writeReal_rlookup (p : Path) (d : String) :
    ∀ (t t' : RTree), writeReal p d t = some t' → rlookup p t' = some (.file d) := by
  induction p with
  | nil => intro t t' h; simp [writeReal] at h
  | cons n p' ih =>
    intro t t' h
    cases t with
    | file fd => cases p' <;> simp [writeReal] at h
    | dir es =>
      cases p' with
      | nil =>
        rcases hfe : findEntry es n with _ | t0
        · simp only [writeReal, hfe, Option.some.injEq] at h
          subst h
          simp [rlookup, findEntry_setEntry_same]
        · cases t0 with
          | file fd0 =>
            simp only [writeReal, hfe, Option.some.injEq] at h
            subst h
            simp [rlookup, findEntry_setEntry_same]
          | dir es0 => simp [writeReal, hfe] at h
      | cons m p'' =>
        rcases hfe : findEntry es n with _ | t0
        · simp [writeReal, hfe] at h
        · rcases hw : writeReal (m :: p'') d t0 with _ | t1
          · simp [writeReal, hfe, hw] at h
          · simp [writeReal, hfe, hw] at h
            subst h
            simp only [rlookup, findEntry_setEntry_same]
            exact ih t0 t1 hw

/-- `writeReal` changes file contents only at the written path: reading any
other path of the modified real tree agrees with the original. -/
theorem writeReal_readReal_frame (p : Path) (d : String) :
    ∀ (t t' : RTree), writeReal p d t = some t' →
      ∀ q, q ≠ p → readReal t' q = readReal t q := by
  induction p with
  | nil => intro t t' h; simp [writeReal] at h
  | cons n p' ih =>
    intro t t' h q hq
    cases t with
    | file fd => cases p' <;> simp [writeReal] at h
    | dir es =>
      cases p' with
      | nil =>
        rcases hfe : findEntry es n with _ | t0
        · simp only [writeReal, hfe, Option.some.injEq] at h
          subst h
          cases q with
          | nil => rfl
          | cons k q'' =>
            by_cases hk : k = n
            · subst hk
              have hq'' : q'' ≠ [] := fun hnil => hq (by rw [hnil])
              rw [readReal_dir_cons, findEntry_setEntry_same, readReal_dir_cons, hfe]
              cases q'' with
              | nil => exact absurd rfl hq''
              | cons a b => rfl
            · rw [readReal_dir_cons, findEntry_setEntry_ne es n k _ hk, readReal_dir_cons]
        · cases t0 with
          | dir es0 => simp [writeReal, hfe] at h
          | file fd0 =>
            simp only [writeReal, hfe, Option.some.injEq] at h
            subst h
            cases q with
            | nil => rfl
            | cons k q'' =>
              by_cases hk : k = n
              · subst hk
                have hq'' : q'' ≠ [] := fun hnil => hq (by rw [hnil])
                rw [readReal_dir_cons, findEntry_setEntry_same, readReal_dir_cons, hfe]
                cases q'' with
                | nil => exact absurd rfl hq''
                | cons a b => rfl
              · rw [readReal_dir_cons, findEntry_setEntry_ne es n k _ hk, readReal_dir_cons]
      | cons m p'' =>
        rcases hfe : findEntry es n with _ | t0
        · simp [writeReal, hfe] at h
        · rcases hw : writeReal (m :: p'') d t0 with _ | t1
          · simp [writeReal, hfe, hw] at h
          · simp [writeReal, hfe, hw] at h
            subst h
            cases q with
            | nil => rfl
            | cons k q'' =>
              by_cases hk : k = n
              · subst hk
                have hq'' : q'' ≠ m :: p'' := fun he => hq (by rw [he])
                rw [readReal_dir_cons, findEntry_setEntry_same, readReal_dir_cons, hfe]
                exact ih t0 t1 hw q'' hq''
              · rw [readReal_dir_cons, findEntry_setEntry_ne es n k _ hk, readReal_dir_cons]

/-- Reading any path under a `copyDir` mirror is reading the corresponding
path of the (possibly since-modified) real tree. -/
theorem readWs_copyDir (real' : RTree) :
    ∀ (q : Path) (tgt : Path) (rt : RTree), shapeOk real' tgt rt →
      readWs real' (copyDir tgt rt) q = readReal real' (tgt ++ q) := by
  intro q
  induction q with
  | nil =>
    intro tgt rt hso
    cases rt with
    | file d => simp [copyDir, readWs, readReal]
    | dir es =>
      simp only [copyDir, readWs]
      exact (hso.2 [] es (by simp [rlookup])).symm
  | cons n q' ih =>
    intro tgt rt hso
    cases rt with
    | file d => simp [copyDir, readWs, readReal]
    | dir es =>
      simp only [copyDir, readWs, findEntry_copyEntries]
      rcases hfe : findEntry es n with _ | t
      · simp only [Option.map_none']
        exact (hso.1 (n :: q') (by simp [rlookup, hfe])).symm
      · simp only [Option.map_some']
        have hso' : shapeOk real' (tgt ++ [n]) t := by
          constructor
          · intro u hu
            rw [List.append_assoc]
            exact hso.1 (n :: u) (by simp [rlookup, hfe, hu])
          · intro u es' hu
            rw [List.append_assoc]
            exact hso.2 (n :: u) es' (by simp [rlookup, hfe, hu])
        rw [ih (tgt ++ [n]) t hso', List.append_assoc]
        rfl

theorem findEntry_eq_none_of_not_mem {α : Type} (es : List (String × α)) (n : String)
    (h : n ∉ es.map Prod.fst) : findEntry es n = none := by
  induction es with
  | nil => rfl
  | cons e rest ih =>
    obtain ⟨m, t⟩ := e
    simp only [List.map_cons, List.mem_cons] at h
    push_neg at h
    simp [findEntry, Ne.symm h.1, ih h.2]

theorem findEntry_removeEntry_same {α : Type} (es : List (String × α)) (n : String)
    (h : (es.map Prod.fst).Nodup) : findEntry (removeEntry es n) n = none := by
  induction es with
  | nil => rfl
  | cons e rest ih =>
    obtain ⟨m, t⟩ := e
    simp only [List.map_cons, List.nodup_cons] at h
    by_cases hm : m = n
    · subst hm
      simp only [removeEntry, if_pos rfl]
      exact findEntry_eq_none_of_not_mem rest m h.1
    · simp [removeEntry, hm, findEntry, ih h.2]

/-- Reading through a symlink is reading the linked real path. -/
theorem readWs_link (real : RTree) (tgt : Path) (q : Path) :
    readWs real (.link tgt) q = readReal real (tgt ++ q) := by
  simp only [readWs, readReal]

theorem append_cons_ne_append_cons (tp : Path) (k r : String) (u v : Path)
    (hk : k ≠ r) : tp ++ (k :: u) ≠ tp ++ (r :: v) := by
  intro h
  exact hk (List.cons.injEq .. ▸ List.append_cancel_left h).1

/-- `os.MkdirAll` keeps a directory a directory. -/
theorem mkdirAllWs_dir_shape (d : Path) (real : RTree) (es : List (String × WTree))
    (r : RTree) (w : WTree) (h : mkdirAllWs d real (.dir es) = some (r, w)) :
    ∃ es', w = .dir es' := by
  cases d with
  | nil =>
    simp only [mkdirAllWs, Option.some.injEq, Prod.mk.injEq] at h
    exact ⟨es, h.2.symm⟩
  | cons n d' =>
    rcases hfe : findEntry es n with _ | t
    · simp only [mkdirAllWs, hfe] at h
      rcases hmk : mkdirAllWs d' real (.dir []) with _ | rw'
      · rw [hmk] at h; simp at h
      · rw [hmk] at h
        simp only [Option.map_some', Option.some.injEq, Prod.mk.injEq] at h
        exact ⟨setEntry es n rw'.2, h.2.symm⟩
    · cases t with
      | file fd => simp [mkdirAllWs, hfe] at h
      | dir es0 =>
        simp only [mkdirAllWs, hfe] at h
        rcases hmk : mkdirAllWs d' real (.dir es0) with _ | rw'
        · rw [hmk] at h; simp at h
        · rw [hmk] at h
          simp only [Option.map_some', Option.some.injEq, Prod.mk.injEq] at h
          exact ⟨setEntry es n rw'.2, h.2.symm⟩
      | link tgt =>
        rcases hrl : rlookup tgt real with _ | t0
        · simp [mkdirAllWs, hfe, hrl] at h
        · cases t0 with
          | file fd => simp [mkdirAllWs, hfe, hrl] at h
          | dir es0 =>
            simp only [mkdirAllWs, hfe, hrl] at h
            rcases hmr : mkdirAllReal (tgt ++ d') real with _ | real'
            · rw [hmr] at h; simp at h
            · rw [hmr] at h
              simp only [Option.map_some', Option.some.injEq, Prod.mk.injEq] at h
              exact ⟨es, h.2.symm⟩

/-- `os.MkdirAll` below a fresh empty directory creates the whole chain and
never touches the real tree. -/
theorem mkdirAllWs_fresh (real : RTree) :
    ∀ d : Path, mkdirAllWs d real (.dir []) = some (real, .dir (freshDirsE d)) := by
  intro d
  induction d with
  | nil => rfl
  | cons n d' ih => simp [mkdirAllWs, findEntry, ih, freshDirsE, setEntry]

/-- `os.WriteFile` below the fresh chain creates the fresh file. -/
theorem writeFileWs_fresh (B : String) (real : RTree) :
    ∀ rest : Path, rest ≠ [] →
      writeFileWs rest B real (.dir (freshDirsE rest.dropLast)) =
        some (real, freshFile rest B) := by
  intro rest
  induction rest with
  | nil => intro h; exact absurd rfl h
  | cons r1 rest2 ih =>
    intro _
    cases rest2 with
    | nil => simp [writeFileWs, freshDirsE, findEntry, freshFile, setEntry]
    | cons r2 rest3 =>
      rw [show (r1 :: r2 :: rest3).dropLast = r1 :: (r2 :: rest3).dropLast from rfl]
      have hih := ih (by simp)
      simp [writeFileWs, freshDirsE, findEntry, hih, freshFile, setEntry]

/-- Reading the fresh file back along its creation path. -/
theorem readWs_freshFile (B : String) (real : RTree) :
    ∀ rest : Path, readWs real (freshFile rest B) rest = some B := by
  intro rest
  induction rest with
  | nil => rfl
  | cons n d ih => simp [freshFile, readWs, findEntry, ih]

/-- Any other path under the fresh chain reads nothing. -/
theorem readWs_freshFile_ne (B : String) (real : RTree) :
    ∀ (rest q : Path), q ≠ rest → readWs real (freshFile rest B) q = none := by
  intro rest
  induction rest with
  | nil =>
    intro q hq
    cases q with
    | nil => exact absurd rfl hq
    | cons k q2 => rfl
  | cons n d ih =>
    intro q hq
    cases q with
    | nil => rfl
    | cons k q2 =>
      by_cases hk : k = n
      · subst hk
        have : q2 ≠ d := fun h => hq (by rw [h])
        simp [freshFile, readWs, findEntry, ih q2 this]
      · simp [freshFile, readWs, findEntry, Ne.symm hk]

theorem readReal_eq_none_of_rlookup_none (t : RTree) (u : Path)
    (hu : rlookup u t = none) : readReal t u = none := by
  unfold readReal; rw [hu]

theorem readReal_eq_none_of_rlookup_dir (t : RTree) (u : Path)
    (es' : List (String × RTree)) (hu : rlookup u t = some (.dir es')) :
    readReal t u = none := by
  unfold readReal; rw [hu]

theorem readReal_writeReal (p : Path) (d : String) (t t' : RTree)
    (h : writeReal p d t = some t') : readReal t' p = some d := by
  unfold readReal; rw [writeReal_rlookup p d t t' h]

theorem rlookup_append_cons (R : RTree) (tp : Path) (res_sub : List (String × RTree))
    (k : String) (u : Path) (htp : rlookup tp R = some (.dir res_sub)) :
    rlookup (tp ++ (k :: u)) R =
      match findEntry res_sub k with
      | some t => rlookup u t
      | none => none := by
  rw [rlookup_append, htp]
  rfl

theorem rlookup_sub (R : RTree) (tp : Path) (res_sub : List (String × RTree))
    (k : String) (htp : rlookup tp R = some (.dir res_sub)) :
    rlookup (tp ++ [k]) R = findEntry res_sub k := by
  rw [rlookup_append_cons R tp res_sub k [] htp]
  cases findEntry res_sub k <;> rfl

theorem readReal_append_cons (R : RTree) (tp : Path) (res_sub : List (String × RTree))
    (k : String) (u : Path) (htp : rlookup tp R = some (.dir res_sub)) :
    readReal R (tp ++ (k :: u)) =
      match findEntry res_sub k with
      | some t => readReal t u
      | none => none := by
  unfold readReal
  rw [rlookup_append_cons R tp res_sub k u htp]
  cases findEntry res_sub k <;> rfl

theorem readReal_sub (R : RTree) (tp : Path) (res_sub : List (String × RTree))
    (k : String) (t : RTree) (u : Path) (htp : rlookup tp R = some (.dir res_sub))
    (hfk : findEntry res_sub k = some t) :
    readReal R (tp ++ (k :: u)) = readReal t u := by
  rw [readReal_append_cons R tp res_sub k u htp, hfk]

/-- Reading a materialized (`copyDir`) branch of the workspace under a real
tree that agrees with the original below that branch: the read is the read
of the corresponding real path. -/
theorem mirror_branch_read (Rm R : RTree) (tp : Path) (res_sub : List (String × RTree))
    (k : String) (t : RTree) (q2 : Path)
    (htp : rlookup tp R = some (.dir res_sub))
    (hfk : findEntry res_sub k = some t)
    (hfr : ∀ u, readReal Rm (tp ++ (k :: u)) = readReal R (tp ++ (k :: u))) :
    readWs Rm (copyDir (tp ++ [k]) t) q2 = readReal Rm (tp ++ (k :: q2)) := by
  have hso : shapeOk Rm (tp ++ [k]) t := by
    constructor
    · intro u hu
      have h1 : ((tp ++ [k]) ++ u) = tp ++ (k :: u) := by simp
      rw [h1, hfr u, readReal_sub R tp res_sub k t u htp hfk]
      exact readReal_eq_none_of_rlookup_none t u hu
    · intro u es' hu
      have h1 : ((tp ++ [k]) ++ u) = tp ++ (k :: u) := by simp
      rw [h1, hfr u, readReal_sub R tp res_sub k t u htp hfk]
      exact readReal_eq_none_of_rlookup_dir t u es' hu
  rw [readWs_copyDir Rm q2 (tp ++ [k]) t hso]
  congr 1
  simp

/-- Core of `OverwriteFile` below a materialized top-level directory:
`os.MkdirAll` on the parent path followed by `os.WriteFile` on the full
path, both run over a `copyDir` mirror of the real subtree `res_sub`
rooted at real path `tp`.  Afterwards (1) the real tree is unchanged
except possibly at the written real path `tp ++ rest` (the symlink
write-through), (2) the written workspace path reads back the new
content, and (3) every other workspace path still mirrors the current
real tree. -/
theorem overwrite_sub (B : String) (R : RTree) :
    ∀ (rest : Path) (tp : Path) (res_sub : List (String × RTree)),
      rest ≠ [] →
      rlookup tp R = some (.dir res_sub) →
      ∀ (R1 : RTree) (wm : WTree) (Rf : RTree) (wf : WTree),
        mkdirAllWs rest.dropLast R (.dir (copyEntries tp res_sub)) = some (R1, wm) →
        writeFileWs rest B R1 wm = some (Rf, wf) →
        (∀ x, x ≠ tp ++ rest → readReal Rf x = readReal R x) ∧
        readWs Rf wf rest = some B ∧
        (∀ q, q ≠ rest → readWs Rf wf q = readReal Rf (tp ++ q)) := by
  intro rest
  induction rest with
  | nil => intro tp res_sub hne; exact absurd rfl hne
  | cons r1 rest2 ih =>
    intro tp res_sub _ htp R1 wm Rf wf hmk hwf
    cases rest2 with
    | nil =>
      rw [show ([r1] : Path).dropLast = [] from rfl] at hmk
      simp only [mkdirAllWs, Option.some.injEq, Prod.mk.injEq] at hmk
      obtain ⟨hR1, hwm⟩ := hmk
      subst hR1
      subst hwm
      simp only [writeFileWs, findEntry_copyEntries] at hwf
      rcases hf1 : findEntry res_sub r1 with _ | t
      · rw [hf1] at hwf
        simp only [Option.map_none'] at hwf
        simp only [Option.some.injEq, Prod.mk.injEq] at hwf
        obtain ⟨hRf, hwf'⟩ := hwf
        subst hRf
        subst hwf'
        refine ⟨fun x _ => rfl, ?_, ?_⟩
        · simp [readWs, findEntry_setEntry_same]
        · intro q hq
          cases q with
          | nil =>
            simp only [readWs, List.append_nil]
            exact (readReal_eq_none_of_rlookup_dir R tp res_sub htp).symm
          | cons k q2 =>
            by_cases hk : k = r1
            · subst hk
              have hq2 : q2 ≠ [] := fun h => hq (by rw [h])
              rw [readReal_append_cons R tp res_sub k q2 htp, hf1]
              simp only [readWs, findEntry_setEntry_same]
              cases q2 with
              | nil => exact absurd rfl hq2
              | cons a b => rfl
            · simp only [readWs]
              rw [findEntry_setEntry_ne (copyEntries tp res_sub) r1 k _ hk,
                findEntry_copyEntries]
              rcases hfk : findEntry res_sub k with _ | t2
              · rw [readReal_append_cons R tp res_sub k q2 htp, hfk]
                rfl
              · show readWs R (copyDir (tp ++ [k]) t2) q2 = _
                exact mirror_branch_read R R tp res_sub k t2 q2 htp hfk (fun u => rfl)
      · rw [hf1] at hwf
        cases t with
        | dir sub' =>
          simp [Option.map_some', copyDir] at hwf
        | file fd =>
          simp only [Option.map_some', copyDir] at hwf
          rcases hw : writeReal (tp ++ [r1]) B R with _ | R2
          · rw [hw] at hwf; simp at hwf
          · rw [hw] at hwf
            simp only [Option.map_some', Option.some.injEq, Prod.mk.injEq] at hwf
            obtain ⟨hRf, hwf'⟩ := hwf
            subst hRf
            subst hwf'
            refine ⟨?_, ?_, ?_⟩
            · intro x hx
              exact writeReal_readReal_frame (tp ++ [r1]) B R R2 hw x hx
            · simp only [readWs]
              rw [findEntry_copyEntries, hf1]
              show readWs R2 (.link (tp ++ [r1])) [] = some B
              rw [readWs_link, List.append_nil]
              exact readReal_writeReal (tp ++ [r1]) B R R2 hw
            · intro q hq
              cases q with
              | nil =>
                simp only [readWs, List.append_nil]
                rw [writeReal_readReal_frame (tp ++ [r1]) B R R2 hw tp (by simp)]
                exact (readReal_eq_none_of_rlookup_dir R tp res_sub htp).symm
              | cons k q2 =>
                by_cases hk : k = r1
                · subst hk
                  simp only [readWs]
                  rw [findEntry_copyEntries, hf1]
                  show readWs R2 (.link (tp ++ [k])) q2 = _
                  rw [readWs_link]
                  congr 1
                  simp
                · simp only [readWs]
                  rw [findEntry_copyEntries]
                  rcases hfk : findEntry res_sub k with _ | t2
                  · rw [writeReal_readReal_frame (tp ++ [r1]) B R R2 hw (tp ++ (k :: q2))
                      (append_cons_ne_append_cons tp k r1 q2 [] hk)]
                    rw [readReal_append_cons R tp res_sub k q2 htp, hfk]
                    rfl
                  · show readWs R2 (copyDir (tp ++ [k]) t2) q2 = _
                    exact mirror_branch_read R2 R tp res_sub k t2 q2 htp hfk
                      (fun u => writeReal_readReal_frame (tp ++ [r1]) B R R2 hw
                        (tp ++ (k :: u)) (append_cons_ne_append_cons tp k r1 u [] hk))
    | cons r2 rest3 =>
      rw [show (r1 :: r2 :: rest3).dropLast = r1 :: (r2 :: rest3).dropLast from rfl] at hmk
      rcases hf1 : findEntry res_sub r1 with _ | t
      · simp only [mkdirAllWs, findEntry_copyEntries, hf1, Option.map_none'] at hmk
        rw [mkdirAllWs_fresh R (r2 :: rest3).dropLast] at hmk
        simp only [Option.map_some', Option.some.injEq, Prod.mk.injEq] at hmk
        obtain ⟨hR1, hwm⟩ := hmk
        subst hR1
        subst hwm
        simp only [writeFileWs, findEntry_setEntry_same] at hwf
        rw [writeFileWs_fresh B R (r2 :: rest3) (by simp)] at hwf
        simp only [Option.map_some', Option.some.injEq, Prod.mk.injEq] at hwf
        obtain ⟨hRf, hwf'⟩ := hwf
        subst hRf
        rw [setEntry_setEntry] at hwf'
        subst hwf'
        refine ⟨fun x _ => rfl, ?_, ?_⟩
        · simp only [readWs, findEntry_setEntry_same]
          exact readWs_freshFile B R (r2 :: rest3)
        · intro q hq
          cases q with
          | nil =>
            simp only [readWs, List.append_nil]
            exact (readReal_eq_none_of_rlookup_dir R tp res_sub htp).symm
          | cons k q2 =>
            by_cases hk : k = r1
            · subst hk
              have hq2 : q2 ≠ r2 :: rest3 := fun h => hq (by rw [h])
              simp only [readWs, findEntry_setEntry_same]
              rw [readWs_freshFile_ne B R (r2 :: rest3) q2 hq2]
              rw [readReal_append_cons R tp res_sub k q2 htp, hf1]
            · simp only [readWs]
              rw [findEntry_setEntry_ne (copyEntries tp res_sub) r1 k _ hk,
                findEntry_copyEntries]
              rcases hfk : findEntry res_sub k with _ | t2
              · rw [readReal_append_cons R tp res_sub k q2 htp, hfk]
                rfl
              · show readWs R (copyDir (tp ++ [k]) t2) q2 = _
                exact mirror_branch_read R R tp res_sub k t2 q2 htp hfk (fun u => rfl)
      · cases t with
        | file fd =>
          have hrl : rlookup (tp ++ [r1]) R = some (.file fd) := by
            rw [rlookup_sub R tp res_sub r1 htp, hf1]
          simp [mkdirAllWs, findEntry_copyEntries, hf1, Option.map_some', copyDir,
            hrl] at hmk
        | dir sub' =>
          have hsub : rlookup (tp ++ [r1]) R = some (.dir sub') := by
            rw [rlookup_sub R tp res_sub r1 htp, hf1]
          simp only [mkdirAllWs, findEntry_copyEntries, hf1, Option.map_some',
            copyDir] at hmk
          rcases hmk2 : mkdirAllWs (r2 :: rest3).dropLast R
              (.dir (copyEntries (tp ++ [r1]) sub')) with _ | rw1
          · rw [hmk2] at hmk; simp at hmk
          · obtain ⟨R1c, wm1⟩ := rw1
            rw [hmk2] at hmk
            simp only [Option.map_some', Option.some.injEq, Prod.mk.injEq] at hmk
            obtain ⟨hR1, hwm⟩ := hmk
            subst hR1
            subst hwm
            obtain ⟨esm, hesm⟩ := mkdirAllWs_dir_shape (r2 :: rest3).dropLast R
              (copyEntries (tp ++ [r1]) sub') R1c wm1 hmk2
            subst hesm
            simp only [writeFileWs, findEntry_setEntry_same] at hwf
            rcases hwf2 : writeFileWs (r2 :: rest3) B R1c (.dir esm) with _ | rw2
            · rw [hwf2] at hwf; simp at hwf
            · obtain ⟨R2c, wsub⟩ := rw2
              rw [hwf2] at hwf
              simp only [Option.map_some', Option.some.injEq, Prod.mk.injEq] at hwf
              obtain ⟨hRf, hwf'⟩ := hwf
              subst hRf
              rw [setEntry_setEntry] at hwf'
              subst hwf'
              obtain ⟨ihf, ihr, ihm⟩ := ih (tp ++ [r1]) sub' (by simp) hsub R1c
                (.dir esm) R2c wsub hmk2 hwf2
              refine ⟨?_, ?_, ?_⟩
              · intro x hx
                exact ihf x (fun hxe => hx (by simpa using hxe))
              · simp only [readWs, findEntry_setEntry_same]
                exact ihr
              · intro q hq
                cases q with
                | nil =>
                  simp only [readWs, List.append_nil]
                  rw [ihf tp (by simp)]
                  exact (readReal_eq_none_of_rlookup_dir R tp res_sub htp).symm
                | cons k q2 =>
                  by_cases hk : k = r1
                  · subst hk
                    have hq2 : q2 ≠ r2 :: rest3 := fun h => hq (by rw [h])
                    simp only [readWs, findEntry_setEntry_same]
                    rw [ihm q2 hq2]
                    congr 1
                    simp
                  · have hxne : ∀ u : Path, tp ++ (k :: u) ≠ (tp ++ [r1]) ++ (r2 :: rest3) :=
                      fun u hxe =>
                        append_cons_ne_append_cons tp k r1 u (r2 :: rest3) hk
                          (by simpa using hxe)
                    simp only [readWs]
                    rw [findEntry_setEntry_ne (copyEntries tp res_sub) r1 k _ hk,
                      findEntry_copyEntries]
                    rcases hfk : findEntry res_sub k with _ | t2
                    · rw [ihf (tp ++ (k :: q2)) (hxne q2)]
                      rw [readReal_append_cons R tp res_sub k q2 htp, hfk]
                      rfl
                    · show readWs R2c (copyDir (tp ++ [k]) t2) q2 = _
                      exact mirror_branch_read R2c R tp res_sub k t2 q2 htp hfk
                        (fun u => ihf (tp ++ (k :: u)) (hxne u))

theorem findEntry_wes (res0 : List (String × RTree)) (n : String) :
    findEntry (res0.map fun e => (e.1, WTree.link [e.1])) n =
      (findEntry res0 n).map (fun _ => WTree.link [n]) := by
  induction res0 with
  | nil => rfl
  | cons e rest ih =>
    obtain ⟨m, t⟩ := e
    by_cases hm : m = n
    · subst hm; simp [findEntry]
    · simp [findEntry, hm, ih]

theorem wes_keys (res0 : List (String × RTree)) :
    ((res0.map fun e => (e.1, WTree.link [e.1])).map Prod.fst) = res0.map Prod.fst := by
  simp [List.map_map, Function.comp]

/-- C2: after a fresh workspace is created over the real project root and
`OverwriteFile` succeeds on a relative path, reading that path under the
handle returns exactly the new bytes, and reading any other path that is
not a prefix of it and held a file under the original real root returns
that file's original bytes. -/
theorem c2_workspace_isolation (R : RTree) (ws : WTree) (p : Path) (B : String)
    (Rp : RTree) (wsp : WTree)
    (hnd : nodupRoot R)
    (h1 : NewTempDir R = some ws)
    (h2 : OverwriteFile R ws p B = some (Rp, wsp)) :
    readWs Rp wsp p = some B ∧
    ∀ q D, q ≠ p → ¬ q <+: p → readReal R q = some D → readWs Rp wsp q = some D := by
  cases R with
  | file fd => simp [NewTempDir] at h1
  | dir res0 =>
    simp only [NewTempDir, Option.some.injEq] at h1
    subst h1
    cases p with
    | nil => simp [OverwriteFile] at h2
    | cons top rest =>
      rcases hf0 : findEntry res0 top with _ | ttop
      · simp [OverwriteFile, findEntry_wes, hf0] at h2
      · have hrt : rlookup [top] (RTree.dir res0) = some ttop := by simp [rlookup, hf0]
        cases ttop with
        | dir res =>
          simp only [OverwriteFile, findEntry_wes, hf0, Option.map_some', hrt] at h2
          cases rest with
          | nil =>
            simp [overwriteFinish, mkdirAllWs, writeFileWs, findEntry_setEntry_same,
              copyDir] at h2
          | cons r1 rest' =>
            simp only [overwriteFinish] at h2
            rw [show (top :: r1 :: rest').dropLast = top :: (r1 :: rest').dropLast
              from rfl] at h2
            simp only [mkdirAllWs, findEntry_setEntry_same, copyDir] at h2
            rcases hmk2 : mkdirAllWs (r1 :: rest').dropLast (RTree.dir res0)
                (.dir (copyEntries [top] res)) with _ | rw1
            · rw [hmk2] at h2; simp at h2
            · obtain ⟨R1c, wm1⟩ := rw1
              rw [hmk2] at h2
              simp only [Option.map_some', Option.some_bind] at h2
              obtain ⟨esm, hesm⟩ := mkdirAllWs_dir_shape (r1 :: rest').dropLast
                (RTree.dir res0) (copyEntries [top] res) R1c wm1 hmk2
              subst hesm
              simp only [writeFileWs, findEntry_setEntry_same] at h2
              rcases hwf2 : writeFileWs (r1 :: rest') B R1c (.dir esm) with _ | rw2
              · rw [hwf2] at h2; simp at h2
              · obtain ⟨R2c, wsub⟩ := rw2
                rw [hwf2] at h2
                simp only [Option.map_some', Option.some.injEq, Prod.mk.injEq] at h2
                obtain ⟨hRp, hwsp⟩ := h2
                subst hRp
                rw [setEntry_setEntry, setEntry_setEntry] at hwsp
                subst hwsp
                obtain ⟨Sf, Sr, Sm⟩ := overwrite_sub B (RTree.dir res0) (r1 :: rest')
                  [top] res (by simp) hrt R1c (.dir esm) R2c wsub hmk2 hwf2
                refine ⟨?_, ?_⟩
                · simp only [readWs, findEntry_setEntry_same]
                  exact Sr
                · intro q D hq hpre hrd
                  cases q with
                  | nil => simp [readReal, rlookup] at hrd
                  | cons k q2 =>
                    by_cases hk : k = top
                    · subst hk
                      have hq2 : q2 ≠ r1 :: rest' := fun h => hq (by rw [h])
                      simp only [readWs, findEntry_setEntry_same]
                      rw [Sm q2 hq2]
                      rw [Sf ([k] ++ q2)
                        (fun h => hq2 (List.append_cancel_left h))]
                      rw [show ([k] : Path) ++ q2 = k :: q2 from rfl]
                      exact hrd
                    · simp only [readWs]
                      rw [findEntry_setEntry_ne _ top k _ hk, findEntry_wes]
                      rcases hfk : findEntry res0 k with _ | tk
                      · rw [readReal_dir_cons, hfk] at hrd
                        simp at hrd
                      · show readWs R2c (.link [k]) q2 = some D
                        rw [readWs_link]
                        rw [Sf ([k] ++ q2) (by simp [hk])]
                        rw [show ([k] : Path) ++ q2 = k :: q2 from rfl]
                        exact hrd
        | file fd =>
          simp only [OverwriteFile, findEntry_wes, hf0, Option.map_some', hrt] at h2
          have hwesnd : (((res0.map fun e => (e.1, WTree.link [e.1])).map Prod.fst)).Nodup := by
            rw [wes_keys]; exact hnd
          have hrm : findEntry (removeEntry (res0.map fun e => (e.1, WTree.link [e.1])) top)
              top = none :=
            findEntry_removeEntry_same _ top hwesnd
          cases rest with
          | nil =>
            simp only [overwriteFinish, show ([top] : Path).dropLast = [] from rfl,
              mkdirAllWs, Option.some_bind, writeFileWs, hrm, Option.some.injEq,
              Prod.mk.injEq] at h2
            obtain ⟨hRp, hwsp⟩ := h2
            subst hRp
            subst hwsp
            refine ⟨?_, ?_⟩
            · simp [readWs, findEntry_setEntry_same]
            · intro q D hq hpre hrd
              cases q with
              | nil => simp [readReal, rlookup] at hrd
              | cons k q2 =>
                by_cases hk : k = top
                · subst hk
                  rw [readReal_dir_cons, hf0] at hrd
                  cases q2 with
                  | nil => exact absurd rfl hq
                  | cons a b => simp [readReal, rlookup] at hrd
                · simp only [readWs]
                  rw [findEntry_setEntry_ne _ top k _ hk,
                    findEntry_removeEntry_ne _ top k hk, findEntry_wes]
                  rcases hfk : findEntry res0 k with _ | tk
                  · rw [readReal_dir_cons, hfk] at hrd
                    simp at hrd
                  · show readWs (RTree.dir res0) (.link [k]) q2 = some D
                    rw [readWs_link]
                    rw [show ([k] : Path) ++ q2 = k :: q2 from rfl]
                    exact hrd
          | cons r1 rest' =>
            simp only [overwriteFinish] at h2
            rw [show (top :: r1 :: rest').dropLast = top :: (r1 :: rest').dropLast
              from rfl] at h2
            simp only [mkdirAllWs, hrm] at h2
            rw [mkdirAllWs_fresh (RTree.dir res0) ((r1 :: rest').dropLast)] at h2
            simp only [Option.map_some', Option.some_bind] at h2
            simp only [writeFileWs, findEntry_setEntry_same] at h2
            rw [writeFileWs_fresh B (RTree.dir res0) (r1 :: rest') (by simp)] at h2
            simp only [Option.map_some', Option.some.injEq, Prod.mk.injEq] at h2
            obtain ⟨hRp, hwsp⟩ := h2
            subst hRp
            rw [setEntry_setEntry] at hwsp
            subst hwsp
            refine ⟨?_, ?_⟩
            · simp only [readWs, findEntry_setEntry_same]
              exact readWs_freshFile B (RTree.dir res0) (r1 :: rest')
            · intro q D hq hpre hrd
              cases q with
              | nil => simp [readReal, rlookup] at hrd
              | cons k q2 =>
                by_cases hk : k = top
                · subst hk
                  rw [readReal_dir_cons, hf0] at hrd
                  cases q2 with
                  | nil => exact absurd ⟨r1 :: rest', rfl⟩ hpre
                  | cons a b => simp [readReal, rlookup] at hrd
                · simp only [readWs]
                  rw [findEntry_setEntry_ne _ top k _ hk,
                    findEntry_removeEntry_ne _ top k hk, findEntry_wes]
                  rcases hfk : findEntry res0 k with _ | tk
                  · rw [readReal_dir_cons, hfk] at hrd
                    simp at hrd
                  · show readWs (RTree.dir res0) (.link [k]) q2 = some D
                    rw [readWs_link]
                    rw [show ([k] : Path) ++ q2 = k :: q2 from rfl]
                    exact hrd

/-- Witness for `c2_workspace_isolation`: a root with file "a" and
directory "pkg"; after overriding "pkg/file.go" with "B", that path reads
"B" under the handle and the sibling "a" still reads its original "A". -/
theorem c2_workspace_isolation_witness :
    nodupRoot (RTree.dir [("a", RTree.file "A"), ("pkg", RTree.dir [("file.go", RTree.file "orig")])]) ∧
    NewTempDir (RTree.dir [("a", RTree.file "A"), ("pkg", RTree.dir [("file.go", RTree.file "orig")])]) = some (WTree.dir [("a", WTree.link ["a"]), ("pkg", WTree.link ["pkg"])]) ∧
    OverwriteFile (RTree.dir [("a", RTree.file "A"), ("pkg", RTree.dir [("file.go", RTree.file "orig")])]) (WTree.dir [("a", WTree.link ["a"]), ("pkg", WTree.link ["pkg"])]) ["pkg", "file.go"] "B" = some ((RTree.dir [("a", RTree.file "A"), ("pkg", RTree.dir [("file.go", RTree.file "B")])]), (WTree.dir [("a", WTree.link ["a"]), ("pkg", WTree.dir [("file.go", WTree.link ["pkg", "file.go"])])])) ∧
    readWs (RTree.dir [("a", RTree.file "A"), ("pkg", RTree.dir [("file.go", RTree.file "B")])]) (WTree.dir [("a", WTree.link ["a"]), ("pkg", WTree.dir [("file.go", WTree.link ["pkg", "file.go"])])]) ["pkg", "file.go"] = some "B" ∧
    readWs (RTree.dir [("a", RTree.file "A"), ("pkg", RTree.dir [("file.go", RTree.file "B")])]) (WTree.dir [("a", WTree.link ["a"]), ("pkg", WTree.dir [("file.go", WTree.link ["pkg", "file.go"])])]) ["a"] = some "A" := by
  have hov : OverwriteFile (RTree.dir [("a", RTree.file "A"), ("pkg", RTree.dir [("file.go", RTree.file "orig")])]) (WTree.dir [("a", WTree.link ["a"]), ("pkg", WTree.link ["pkg"])]) ["pkg", "file.go"] "B" = some ((RTree.dir [("a", RTree.file "A"), ("pkg", RTree.dir [("file.go", RTree.file "B")])]), (WTree.dir [("a", WTree.link ["a"]), ("pkg", WTree.dir [("file.go", WTree.link ["pkg", "file.go"])])])) := by
    simp [OverwriteFile, overwriteFinish, mkdirAllWs, writeFileWs, writeReal, copyDir,
      copyEntries, findEntry, setEntry, rlookup]
  refine ⟨by decide, rfl, hov, ?_, ?_⟩
  · exact (c2_workspace_isolation (RTree.dir [("a", RTree.file "A"), ("pkg", RTree.dir [("file.go", RTree.file "orig")])]) (WTree.dir [("a", WTree.link ["a"]), ("pkg", WTree.link ["pkg"])]) ["pkg", "file.go"] "B" (RTree.dir [("a", RTree.file "A"), ("pkg", RTree.dir [("file.go", RTree.file "B")])]) (WTree.dir [("a", WTree.link ["a"]), ("pkg", WTree.dir [("file.go", WTree.link ["pkg", "file.go"])])]) (by decide) rfl hov).1
  · exact (c2_workspace_isolation (RTree.dir [("a", RTree.file "A"), ("pkg", RTree.dir [("file.go", RTree.file "orig")])]) (WTree.dir [("a", WTree.link ["a"]), ("pkg", WTree.link ["pkg"])]) ["pkg", "file.go"] "B" (RTree.dir [("a", RTree.file "A"), ("pkg", RTree.dir [("file.go", RTree.file "B")])]) (WTree.dir [("a", WTree.link ["a"]), ("pkg", WTree.dir [("file.go", WTree.link ["pkg", "file.go"])])]) (by decide) rfl hov).2 ["a"] "A"
      (by decide) (by decide) rfl

end Snare
